import Mathlib

/-!
# go-file-conv: the `converter` package

A shallow embedding of `converter/converter.go`.  Every Go function of the
package is a Lean function of the same name.  Go code that touches the outside
world (the file system, the gopdf / unipdf / unioffice / qrcode libraries) is
embedded as state passing over a `World`, and the answers those libraries give
are read from an `Env` of outcomes, one field per primitive.

* a Go `error` is an `Option String` (`none` is `nil`);
* a call either returns, unwinds with a run-time panic, or ends the process
  (`log.Fatalf`): see `Outcome`;
* `float64` coordinates are rationals: the code only copies them, adds the
  constant 30 and compares nothing, and every constant is a short decimal.
-/

namespace Converter

/-! ## Constants and data model (converter.go, lines 28-57) -/

/-- Constant `defaultMargin = 5.0`. -/
def defaultMargin : ℚ := 5

/-- Constant `rightCorner = 520`. -/
def rightCorner : ℚ := 520

/-- Constant `bottomCorner = 770`. -/
def bottomCorner : ℚ := 770

/-- Constant `privyImg`. -/
def privyImg : String := "qr_bg.png"

/-- Constant `privyResizedImg`. -/
def privyResizedImg : String := "qr_bg_resized.png"

/-- The local `qrSize := 75.0` of both stamping functions. -/
def qrSize : ℚ := 75

/-- Width that `UseImportedTemplate` is given in `addQRCodeToPdf` (line 296):
the A4 page width in points. -/
def pageWidth : ℚ := 595.28

/-- Modelled from the spec: the A4 page height in points (data model, section 3:
"A4 page assumed: 595.28 x 841.89"); the source only names the width. -/
def pageHeight : ℚ := 841.89

/-- Go `type PosQr struct`. -/
structure PosQr where
  X : ℚ
  Y : ℚ
  NameQr : String
deriving DecidableEq

/-- Go `type Stamp struct`; `CustomPos *PosQr` is a pointer, `none` is `nil`. -/
structure Stamp where
  TopLeft : PosQr
  TopRight : PosQr
  BottomLeft : PosQr
  BottomRight : PosQr
  CustomPos : Option PosQr
deriving DecidableEq

/-- Go `type Options struct`; the three fields are pointers, `none` is `nil`. -/
structure Options where
  X : Option ℚ
  Y : Option ℚ
  PDFPassword : Option String
deriving DecidableEq

/-- Go `func WithX`. -/
def WithX (x : ℚ) : Options → Options := fun opt => { opt with X := some x }

/-- Go `func WithY`. -/
def WithY (y : ℚ) : Options → Options := fun opt => { opt with Y := some y }

/-- Go `func WithPDFPassword`. -/
def WithPDFPassword (password : String) : Options → Options :=
  fun opt => { opt with PDFPassword := some password }

/-! ## Outcomes, world and environment -/

/-- A Go `error`. -/
abbrev GoError := Option String

/-- How a call ends. -/
inductive Outcome (α : Type) where
  /-- The function returned. -/
  | ret (a : α)
  /-- A run-time panic unwound through the function. -/
  | panicked (msg : String)
  /-- The process ended inside the call (`log.Fatalf`). -/
  | exited
deriving DecidableEq

/-- The message of Go's nil-pointer panic. -/
def nilDeref : String := "invalid memory address or nil pointer dereference"

/-- Size argument of one image draw. -/
inductive DrawSize where
  /-- Image of gopdf with a `nil` rectangle: the image's own size. -/
  | native
  /-- Image of gopdf with `&gopdf.Rect` of width and height. -/
  | rect (w h : ℚ)
  /-- Image of unipdf after `ScaleToWidth`. -/
  | width (w : ℚ)
deriving DecidableEq

/-- One image drawn on a page. -/
structure Draw where
  image : String
  x : ℚ
  y : ℚ
  size : DrawSize
deriving DecidableEq

/-- One output page: the source page it shows and the images drawn over it. -/
structure Page where
  tpl : Option Nat
  draws : List Draw
deriving DecidableEq

/-- The descriptive fields an output is given (`setMetaData`, or the `pdfInfo`
of the protected path). -/
structure Info where
  title : String
  author : String
  creator : String
  producer : String
deriving DecidableEq

/-- An output document under construction (`gopdf.GoPdf`, `creator.Creator`)
and, once written, on disk. -/
structure Doc where
  pages : List Page
  info : Option Info
  password : Option String
deriving DecidableEq

/-- One line of the log or of standard output. -/
inductive LogLine where
  /-- Line 109. -/
  | errorProcessing (filePath err : String)
  /-- Line 117. -/
  | errorConverting (filePath err : String)
  /-- Line 122. -/
  | errorConverted (pdfPath err : String)
  /-- Line 126. -/
  | unsupported (extension : String)
  /-- Line 128, standard output. -/
  | processedFile (filePath : String)
  /-- Line 206. -/
  | processedOutput (outputPath : String)
  /-- The message of a `log.Fatalf`. -/
  | fatal (msg : String)
deriving DecidableEq

/-- The part of the outside world the package changes. -/
structure World where
  /-- Names of the files in `img/`, as `os.ReadDir("img")` lists them. -/
  img : List String
  /-- Whether `qr_bg_resized.png` exists. -/
  resized : Bool
  /-- Documents written so far, latest first, with their paths. -/
  written : List (String × Doc)
  /-- Number of UUIDs drawn so far. -/
  nextUuid : Nat
  /-- Log and standard output, oldest first. -/
  log : List LogLine
deriving DecidableEq

/-- Result of `os.Stat` on a directory. -/
inductive StatResult where
  | found
  | notExist
  | failed (err : String)
deriving DecidableEq

/-- One `os.DirEntry`. -/
structure DirEntry where
  Name : String
  IsDir : Bool
deriving DecidableEq

/-- What importing one page of a PDF with gopdf does. -/
inductive PageImport where
  /-- The page is imported. -/
  | good
  /-- The library panics on the page, which is in range. -/
  | malformed (msg : String)
deriving DecidableEq

/-- What unipdf reports about one file. -/
structure Reader where
  /-- Call `model.NewPdfReader`. -/
  newReaderErr : GoError
  /-- Call `IsEncrypted`. -/
  isEncrypted : Except String Bool
  /-- Call `Decrypt` with a password: the pair it returns. -/
  decrypt : String → Bool × GoError
  /-- Call `GetNumPages`, given whether the reader may read the document
  (it is not encrypted, or the last `Decrypt` authenticated). -/
  getNumPages : Bool → Except String Nat
  /-- Call `GetPage`. -/
  getPageErr : Nat → GoError
  /-- Call `AddPage` of the creator on that page. -/
  addPageErr : Nat → GoError
  /-- Call `GetPdfInfo`. -/
  getPdfInfoErr : GoError
  /-- Whether the info dictionary has a creation date. -/
  hasCreationDate : Bool

/-- The answers of the outside world: one field per primitive the code calls. -/
structure Env where
  /-- Call `os.Stat("output")`. -/
  statOutput : StatResult
  /-- Call `os.Mkdir("output")`. -/
  mkdirOutput : GoError
  /-- Call `os.Stat("img")`. -/
  statImg : StatResult
  /-- Call `os.Mkdir("img")`. -/
  mkdirImg : GoError
  /-- Call `os.ReadDir` on the input directory. -/
  readDir : String → Except String (List DirEntry)
  /-- Call `os.ReadDir` on `img`. -/
  readDirImgErr : GoError
  /-- Call `os.RemoveAll` on a path. -/
  removeAllErr : String → GoError
  /-- Call `os.Remove` on a path. -/
  removeErr : String → GoError
  /-- Call `os.Open` on a path. -/
  openErr : String → GoError
  /-- Call `os.Create` on a path. -/
  createErr : String → GoError
  /-- Call `io.Copy` from a source into a destination. -/
  copyErr : String → String → GoError
  /-- Call `image.Decode` on a file. -/
  decodeErr : String → GoError
  /-- Call `png.Encode` into a file. -/
  encodeErr : String → GoError
  /-- The k-th value of `uuid.New().String()`. -/
  uuid : Nat → String
  /-- Whether `qrcode.WriteFile` created the file of the k-th token. -/
  qrWriteOk : Nat → Bool
  /-- Pages of the PDF at a path, as gopdf imports them; an index past the
  list is out of range and the library panics. -/
  pdfPages : String → List PageImport
  /-- Call `Image` of gopdf on an image file. -/
  imageErr : String → GoError
  /-- Call `WritePdf` of gopdf to a path. -/
  writePdfErr : String → GoError
  /-- Call `document.Open` on a docx file. -/
  docxOpenErr : String → GoError
  /-- Call `WriteToFile` of the docx converter to a path. -/
  docxWriteErr : String → GoError
  /-- What unipdf reports about the file at a path. -/
  reader : String → Reader
  /-- Call `NewImageFromFile` of the creator. -/
  newImageErr : String → GoError
  /-- Calls `NewPdfDateFromTime`, `SetPdfInfo`, `MarshalIndent`, `MakeStream`
  of the metadata block, in source order. -/
  metadataErr : Nat → GoError
  /-- Call `WriteToFile` of the creator to a path. -/
  writeToFileErr : String → GoError

/-- A computation of the package: from a world to an outcome and a world. -/
def M (α : Type) : Type := World → Outcome α × World

/-- Return a value. -/
def M.pure {α : Type} (a : α) : M α := fun w => (Outcome.ret a, w)

/-- Sequence: a panic or an exit of the first part ends the whole. -/
def M.bind {α β : Type} (m : M α) (f : α → M β) : M β := fun w =>
  match m w with
  | (Outcome.ret a, w1) => f a w1
  | (Outcome.panicked msg, w1) => (Outcome.panicked msg, w1)
  | (Outcome.exited, w1) => (Outcome.exited, w1)

instance : Monad M where
  pure := M.pure
  bind := M.bind

/-- A run-time panic. -/
def panic {α : Type} (msg : String) : M α := fun w => (Outcome.panicked msg, w)

/-- Go `log.Fatalf`: log the message and end the process. -/
def fatalf {α : Type} (msg : String) : M α :=
  fun w => (Outcome.exited, { w with log := w.log ++ [LogLine.fatal msg] })

/-- Go `log.Printf` and `fmt.Println`. -/
def logLine (l : LogLine) : M Unit :=
  fun w => (Outcome.ret (), { w with log := w.log ++ [l] })

/-- Read the world. -/
def getWorld : M World := fun w => (Outcome.ret w, w)

/-- Change the world. -/
def modifyWorld (f : World → World) : M Unit := fun w => (Outcome.ret (), f w)

/-- Dereference of a pointer: a `nil` pointer panics. -/
def deref {α : Type} : Option α → M α
  | some a => pure a
  | none => panic nilDeref

/-! ## Go standard library: paths and strings

`path/filepath` and `strings` are not part of the repository; the four
functions the package calls are written out after their documentation. -/

/-- Scan of `filepath.Ext`: the path is walked backwards, up to the last
separator, for the last dot. -/
def extAux : List Char → List Char → List Char
  | [], _ => []
  | c :: rest, acc =>
    if c = '/' then [] else if c = '.' then c :: acc else extAux rest (c :: acc)

/-- Go `filepath.Ext`: the suffix that starts at the last dot of the last
element of the path, empty if there is none. -/
def filepath.Ext (path : String) : String := ⟨extAux path.data.reverse []⟩

/-- Go `filepath.Base`: the last element of the path; trailing separators are
dropped first, the empty path gives ".", a path of separators gives "/". -/
def filepath.Base (path : String) : String :=
  if path.data = [] then "."
  else
    let stripped := path.data.reverse.dropWhile (fun c => c == '/')
    let last := (stripped.takeWhile (fun c => c != '/')).reverse
    if last = [] then "/" else ⟨last⟩

/-- Go `filepath.Join` of two elements: empty elements are ignored, the others
are joined by the separator.  The closing `Clean` is left out: it keeps a path
that has no `.` or `..` element and no doubled separator, and in every other
case it keeps the last element, the only part of an input path the package
reads. -/
def filepath.Join (a b : String) : String :=
  if a.data = [] then b else if b.data = [] then a else ⟨a.data ++ '/' :: b.data⟩

/-- Go `strings.ToLower`, on ASCII letters (no other character has a lower
case among the letters of the five extensions, except U+212A and U+0130,
which map to `k` and `i`). -/
def strings.ToLower (s : String) : String := ⟨s.data.map Char.toLower⟩

/-- Go `strings.TrimSuffix`: `s` without the trailing `suffix`, or `s` itself
when it does not end in `suffix`. -/
def strings.TrimSuffix (s suffix : String) : String :=
  if suffix.data.isSuffixOf s.data then ⟨s.data.take (s.data.length - suffix.data.length)⟩
  else s

/-! ## Library objects -/

/-- Calls `pdf.Start` of gopdf and `creator.New` of unipdf: an empty document. -/
def Doc.start : Doc := { pages := [], info := none, password := none }

/-- Call `AddPage` of gopdf: a fresh page becomes the current one. -/
def Doc.AddPage (pdf : Doc) : Doc :=
  { pdf with pages := pdf.pages ++ [{ tpl := none, draws := [] }] }

/-- Change the current page, which is the last one. -/
def Doc.onCurrent (pdf : Doc) (f : Page → Page) : Doc :=
  match pdf.pages.reverse with
  | [] => pdf
  | p :: before => { pdf with pages := before.reverse ++ [f p] }

/-- Call `UseImportedTemplate` of gopdf: the current page shows the template. -/
def Doc.UseImportedTemplate (pdf : Doc) (tpl : Nat) : Doc :=
  pdf.onCurrent fun p => { p with tpl := some tpl }

/-- An image is drawn on the current page. -/
def Doc.draw (pdf : Doc) (d : Draw) : Doc :=
  pdf.onCurrent fun p => { p with draws := p.draws ++ [d] }

/-- Call `ImportPage` of gopdf: the template of page `pageno` (numbered from 1)
of the file; the library panics when the page is out of range or malformed. -/
def ImportPage (env : Env) (filename : String) (pageno : Nat) : M Nat :=
  if pageno = 0 then panic "page out of range"
  else
    match (env.pdfPages filename)[pageno - 1]? with
    | some PageImport.good => pure pageno
    | some (PageImport.malformed msg) => panic msg
    | none => panic "page out of range"

/-- Call `Image` of gopdf: fails when the image file cannot be used, otherwise
draws it on the current page. -/
def Image (env : Env) (pdf : Doc) (picPath : String) (x y : ℚ) (size : DrawSize) :
    GoError × Doc :=
  match env.imageErr picPath with
  | some e => (some e, pdf)
  | none => (none, pdf.draw { image := picPath, x := x, y := y, size := size })

/-- Go slice indexing: an index out of range panics. -/
def index {α : Type} (xs : List α) (i : Nat) : M α :=
  match xs[i]? with
  | some a => pure a
  | none => panic "index out of range"

/-- Call `os.Remove`; only the resized badge is tracked in the world. -/
def osRemove (env : Env) (path : String) : M GoError :=
  match env.removeErr path with
  | some e => pure (some e)
  | none => do
    modifyWorld fun w => if path = privyResizedImg then { w with resized := false } else w
    pure none

/-! ## The package's functions -/

/-- Go `func setMetaData` (lines 664-673). -/
def setMetaData (pdf : Doc) : Doc :=
  { pdf with info := some { title := "Metadata Baru", author := "Librantara Erlanga",
                            creator := "Librantara", producer := "MajuTumbuhBersama" } }

/-- Go `func generateQR` (lines 241-248): draws a UUID, writes the token image
into `img/` (the error of `qrcode.WriteFile` is dropped) and returns its path. -/
def generateQR (env : Env) : M String := fun w =>
  let uuid := env.uuid w.nextUuid
  let w1 : World :=
    { w with nextUuid := w.nextUuid + 1,
             img := if env.qrWriteOk w.nextUuid then List.insert (uuid ++ ".png") w.img
                    else w.img }
  (Outcome.ret ("img/" ++ uuid ++ ".png"), w1)

/-- Go `func resizeImage` (lines 350-394). -/
def resizeImage (env : Env) (inputPath outputPath : String) : M GoError := do
  if let some err := env.openErr inputPath then return some err
  if let some err := env.decodeErr inputPath then return some err
  if let some err := env.createErr outputPath then return some err
  modifyWorld fun w => if outputPath = privyResizedImg then { w with resized := true } else w
  if let some err := env.encodeErr outputPath then return some err
  return none

/-- Go `func importPdfPage` (lines 417-427): `ImportPage` under a deferred
`recover`; whatever the panic, the error is "array index out of bounds". -/
def importPdfPage (env : Env) (filename : String) (pageno : Nat) : M (Nat × GoError) := fun w =>
  match ImportPage env filename pageno w with
  | (Outcome.ret tpl, w1) => (Outcome.ret (tpl, none), w1)
  | (Outcome.panicked _, w1) => (Outcome.ret (0, some "array index out of bounds"), w1)
  | (Outcome.exited, w1) => (Outcome.exited, w1)

/-- The stamp of `addQRCodeToPdf` (lines 257-287). -/
def addQRCodeToPdf_stamp (env : Env) (opt : Options) : M Stamp := do
  let tl ← generateQR env
  let tr ← generateQR env
  let bl ← generateQR env
  let br ← generateQR env
  let a : Stamp :=
    { TopLeft := { X := defaultMargin, Y := defaultMargin, NameQr := tl },
      TopRight := { X := rightCorner, Y := defaultMargin, NameQr := tr },
      BottomLeft := { X := defaultMargin, Y := bottomCorner, NameQr := bl },
      BottomRight := { X := rightCorner, Y := bottomCorner, NameQr := br },
      CustomPos := none }
  match opt.X, opt.Y with
  | some x, some y =>
    let c ← generateQR env
    return { a with CustomPos := some { X := x, Y := y, NameQr := c } }
  | _, _ => return a

/-- The positions to render in `addQRCodeToPdf` (line 301):
`[]PosQr{a.TopLeft, a.TopRight, a.BottomLeft, a.BottomRight, *a.CustomPos}`. -/
def addQRCodeToPdf_positions (a : Stamp) : M (List PosQr) := do
  let c ← deref a.CustomPos
  return [a.TopLeft, a.TopRight, a.BottomLeft, a.BottomRight, c]

/-- The inner loop of `addQRCodeToPdf` (lines 302-323): the token image, then
the badge centred in its footprint; the first failing draw ends the function
with its error. -/
def addQRCodeToPdf_draw (env : Env) : List PosQr → Doc → Except String Doc
  | [], pdf => Except.ok pdf
  | pos :: rest, pdf =>
    match Image env pdf pos.NameQr pos.X pos.Y DrawSize.native with
    | (some err, _) => Except.error err
    | (none, pdf1) =>
      let imageWidth : ℚ := 15
      let imageHeight : ℚ := 15
      let centerX := pos.X + (qrSize - imageWidth) / 2
      let centerY := pos.Y + (qrSize - imageHeight) / 2
      match Image env pdf1 privyResizedImg centerX centerY (DrawSize.rect imageWidth imageHeight) with
      | (some err, _) => Except.error err
      | (none, pdf2) => addQRCodeToPdf_draw env rest pdf2

/-- The outer loop of `addQRCodeToPdf` (lines 298-331).  `Except.error` is a
`return err` of the function, `Except.ok` is the `break`.  Every round that
goes on has imported one more page of the file, so the rounds are counted
down from the number of its pages plus one; the count is never used up
(`addQRCodeToPdf_loop_rounds`). -/
def addQRCodeToPdf_loop (env : Env) (outputPath : String) (a : Stamp) :
    Nat → Nat → List Nat → Doc → M (Except String Doc)
  | 0, _, _, _ => panic "page out of range"
  | rounds + 1, pageno, tpls, pdf => do
    let pageno := pageno + 1
    let positions ← addQRCodeToPdf_positions a
    match addQRCodeToPdf_draw env positions pdf with
    | Except.error err => return Except.error err
    | Except.ok pdf =>
      let (tpl, err) ← importPdfPage env outputPath pageno
      if err.isSome then return Except.ok pdf
      let tpls := tpls ++ [tpl]
      let pdf := pdf.AddPage
      let t ← index tpls (pageno - 1)
      let pdf := pdf.UseImportedTemplate t
      addQRCodeToPdf_loop env outputPath a rounds pageno tpls pdf

/-- Go `func addQRCodeToPdf` (lines 250-348). -/
def addQRCodeToPdf (env : Env) (outputPath : String) (opt : Options) : M GoError := do
  if let some err ← resizeImage env privyImg privyResizedImg then return some err
  let a ← addQRCodeToPdf_stamp env opt
  let pdf := Doc.start
  let pageno := 1
  let tpls := [← ImportPage env outputPath 1]
  let pdf := pdf.AddPage
  let pdf := pdf.UseImportedTemplate (← index tpls 0)
  match ← addQRCodeToPdf_loop env outputPath a ((env.pdfPages outputPath).length + 1) pageno tpls pdf with
  | Except.error err => return some err
  | Except.ok pdf =>
    let pdf := setMetaData pdf
    if let some err ← osRemove env privyResizedImg then return some err
    if let some err := env.writePdfErr outputPath then return some err
    modifyWorld fun w => { w with written := (outputPath, pdf) :: w.written }
    return none

/-- Go `func copyPdfContent` (lines 396-415). -/
def copyPdfContent (env : Env) (srcPath dstPath : String) : M GoError := do
  if let some err := env.openErr srcPath then return some err
  if let some err := env.createErr dstPath then return some err
  if let some err := env.copyErr srcPath dstPath then return some err
  return none

/-- Go `func convertImageToPdf` (lines 210-224). -/
def convertImageToPdf (env : Env) (imagePath pdfPath : String) : M GoError := do
  let pdf := Doc.start
  let pdf := pdf.AddPage
  match Image env pdf imagePath 0 0 DrawSize.native with
  | (some err, _) => return some err
  | (none, pdf) =>
    if let some err := env.writePdfErr pdfPath then return some err
    modifyWorld fun w => { w with written := (pdfPath, pdf) :: w.written }
    return none

/-- Go `func convertDocxToPdf` (lines 226-239): a failed write ends the
process through `log.Fatalf`. -/
def convertDocxToPdf (env : Env) (docxPath outPath : String) : M GoError := do
  if let some err := env.docxOpenErr docxPath then return some err
  if let some err := env.docxWriteErr outPath then
    fatalf ("error converting document: " ++ err)
  return none

/-- The loop of `deleteFilesInFolder` (lines 437-442). -/
def deleteFilesInFolder_loop (env : Env) (folderPath : String) : List String → M GoError
  | [] => pure none
  | name :: rest => do
    if let some err := env.removeAllErr (filepath.Join folderPath name) then return some err
    modifyWorld fun w => { w with img := w.img.erase name }
    deleteFilesInFolder_loop env folderPath rest

/-- Go `func deleteFilesInFolder` (lines 429-445); its one call is on `img`,
the one folder the world tracks. -/
def deleteFilesInFolder (env : Env) (folderPath : String) : M GoError := do
  if let some err := env.readDirImgErr then return some err
  let files := (← getWorld).img
  deleteFilesInFolder_loop env folderPath files

/-- Go `func isPdfPasswordProtected` (lines 447-466). -/
def isPdfPasswordProtected (env : Env) (filePath : String) : Bool × GoError :=
  match env.openErr filePath with
  | some err => (false, some err)
  | none =>
    match (env.reader filePath).newReaderErr with
    | some err => (false, some err)
    | none =>
      match (env.reader filePath).isEncrypted with
      | Except.error err => (false, some err)
      | Except.ok encrypted => (encrypted, none)

/-- Go `func initLicense` (lines 675-696): prints the metered state and sets
the two keys; a failure is printed and nothing leaves the function. -/
def initLicense : M Unit := pure ()

/-- The stamp of `processPasswordProtectedPdf` (lines 506-536). -/
def processPasswordProtectedPdf_stamp (env : Env) (opt : Options) : M Stamp := do
  let tl ← generateQR env
  let tr ← generateQR env
  let bl ← generateQR env
  let br ← generateQR env
  let a : Stamp :=
    { TopLeft := { X := defaultMargin, Y := defaultMargin, NameQr := tl },
      TopRight := { X := rightCorner, Y := defaultMargin, NameQr := tr },
      BottomLeft := { X := defaultMargin, Y := bottomCorner, NameQr := bl },
      BottomRight := { X := rightCorner, Y := bottomCorner, NameQr := br },
      CustomPos := none }
  match opt.X, opt.Y with
  | some x, some y =>
    let c ← generateQR env
    return { a with CustomPos := some { X := x, Y := y, NameQr := c } }
  | _, _ => return a

/-- The positions to render in `processPasswordProtectedPdf` (line 549):
`[]PosQr{a.TopLeft, a.TopRight, a.BottomLeft, a.BottomRight, *a.CustomPos}`. -/
def processPasswordProtectedPdf_positions (a : Stamp) : M (List PosQr) := do
  let c ← deref a.CustomPos
  return [a.TopLeft, a.TopRight, a.BottomLeft, a.BottomRight, c]

/-- The inner loop of `processPasswordProtectedPdf` (lines 550-578). -/
def processPasswordProtectedPdf_draw (env : Env) : List PosQr → Doc → Except String Doc
  | [], c => Except.ok c
  | pos :: rest, c =>
    match env.newImageErr pos.NameQr with
    | some err => Except.error err
    | none =>
      let img : Draw := { image := pos.NameQr, x := pos.X, y := pos.Y, size := DrawSize.width 70 }
      let imageWidth : ℚ := 15
      let imageHeight : ℚ := 15
      let centerX := pos.X + (qrSize - imageWidth) / 2
      let centerY := pos.Y + (qrSize - imageHeight) / 2
      match env.newImageErr privyResizedImg with
      | some err => Except.error err
      | none =>
        let bg : Draw := { image := privyResizedImg, x := centerX, y := centerY,
                           size := DrawSize.width 15 }
        processPasswordProtectedPdf_draw env rest ((c.draw img).draw bg)

/-- The page loop of `processPasswordProtectedPdf` (lines 538-579), from
`pageNum` on, for the given number of pages still to do.  `Except.error` is a
`return err` of the function. -/
def processPasswordProtectedPdf_loop (env : Env) (r : Reader) (a : Stamp) :
    Nat → Nat → Doc → M (Except String Doc)
  | 0, _, c => pure (Except.ok c)
  | todo + 1, pageNum, c => do
    if let some err := r.getPageErr pageNum then return Except.error err
    if let some err := r.addPageErr pageNum then return Except.error err
    let c : Doc := { c with pages := c.pages ++ [{ tpl := some pageNum, draws := [] }] }
    let positions ← processPasswordProtectedPdf_positions a
    match processPasswordProtectedPdf_draw env positions c with
    | Except.error err => return Except.error err
    | Except.ok c => processPasswordProtectedPdf_loop env r a todo (pageNum + 1) c

/-- The metadata block of `processPasswordProtectedPdf` (lines 581-640): every
failure in it ends the process through `log.Fatalf`. -/
def processPasswordProtectedPdf_metadata (env : Env) (r : Reader) : M Unit := do
  if let some err := r.getPdfInfoErr then fatalf ("Err: " ++ err)
  if !r.hasCreationDate then
    if let some err := env.metadataErr 0 then fatalf ("Err: " ++ err)
  if let some err := env.metadataErr 1 then fatalf ("Err: " ++ err)
  if let some err := env.metadataErr 2 then fatalf ("Err: " ++ err)
  if let some err := env.metadataErr 3 then fatalf ("Err: " ++ err)
  if let some err := env.metadataErr 4 then fatalf ("Err: " ++ err)

/-- Call `c.WriteToFile(outputPath)` (line 660) with the writer access function
of lines 650-658, which replaced the one of lines 642-648: it dereferences
`opt.PDFPassword` and encrypts with it. -/
def WriteToFile (env : Env) (c : Doc) (opt : Options) (outputPath : String) : M GoError := do
  let password ← deref opt.PDFPassword
  if let some err := env.writeToFileErr outputPath then return some err
  modifyWorld fun w =>
    { w with written := (outputPath, { c with password := some password }) :: w.written }
  return none

/-- Go `func processPasswordProtectedPdf` (lines 468-662). -/
def processPasswordProtectedPdf (env : Env) (filePath : String) (opt : Options)
    (outputPath : String) : M GoError := do
  if let some err := env.openErr filePath then return some err
  let c := Doc.start
  let pdfReader := env.reader filePath
  if let some err := pdfReader.newReaderErr then return some err
  match pdfReader.isEncrypted with
  | Except.error err => return some err
  | Except.ok encrypted =>
    let authenticated ←
      if encrypted then do
        let password ← deref opt.PDFPassword
        pure (some (pdfReader.decrypt password))
      else pure none
    if let some (_, some err) := authenticated then return some err
    let readable := match authenticated with
      | some (ok, _) => ok
      | none => true
    match pdfReader.getNumPages readable with
    | Except.error err => return some err
    | Except.ok numPages =>
      if let some err ← resizeImage env privyImg privyResizedImg then return some err
      let a ← processPasswordProtectedPdf_stamp env opt
      match ← processPasswordProtectedPdf_loop env pdfReader a numPages 1 c with
      | Except.error err => return some err
      | Except.ok c =>
        processPasswordProtectedPdf_metadata env pdfReader
        let _err ← WriteToFile env c opt outputPath
        return none

/-- Go `func processFile` (lines 158-208). -/
def processFile (env : Env) (filePath extension : String) (opt : Options) : M GoError := do
  let outputPath := filepath.Join "output" (filepath.Base filePath)
  if extension = ".pdf" then
    let (isPwd, err) := isPdfPasswordProtected env filePath
    if let some err := err then return some err
    if isPwd then
      initLicense
      if let some err ← processPasswordProtectedPdf env filePath opt outputPath then
        return some err
    else
      if let some err ← copyPdfContent env filePath outputPath then return some err
      if let some err ← addQRCodeToPdf env outputPath opt then return some err
  else if extension = ".jpg" ∨ extension = ".jpeg" ∨ extension = ".png" then
    let pdfPath := strings.TrimSuffix outputPath extension ++ ".pdf"
    if let some err ← convertImageToPdf env filePath pdfPath then return some err
    if let some err ← addQRCodeToPdf env pdfPath opt then return some err
  else
    return some ("unsupported file format: " ++ extension)
  logLine (LogLine.processedOutput outputPath)
  return none

/-- One round of the loop of `NewProcessFiles` (lines 102-129). -/
def NewProcessFiles_entry (env : Env) (inputPath : String) (opt : Options)
    (file : DirEntry) : M Unit := do
  if !file.IsDir then
    let filePath := filepath.Join inputPath file.Name
    let extension := strings.ToLower (filepath.Ext filePath)
    if extension = ".pdf" ∨ extension = ".jpg" ∨ extension = ".jpeg" ∨ extension = ".png" then
      if let some err ← processFile env filePath extension opt then
        logLine (LogLine.errorProcessing filePath err)
    else if extension = ".docx" then
      initLicense
      let outputPath := filepath.Join "output" (filepath.Base filePath)
      let pdfPath := strings.TrimSuffix outputPath extension ++ ".pdf"
      match ← convertDocxToPdf env filePath pdfPath with
      | some err => logLine (LogLine.errorConverting filePath err)
      | none =>
        if let some err ← addQRCodeToPdf env pdfPath opt then
          logLine (LogLine.errorConverted pdfPath err)
    else
      logLine (LogLine.unsupported extension)
    logLine (LogLine.processedFile filePath)

/-- The loop of `NewProcessFiles` (lines 101-130). -/
def NewProcessFiles_loop (env : Env) (inputPath : String) (opt : Options) :
    List DirEntry → M Unit
  | [] => pure ()
  | file :: rest => do
    NewProcessFiles_entry env inputPath opt file
    NewProcessFiles_loop env inputPath opt rest

/-- The directory check of `NewProcessFiles` (lines 72-82 and 84-94): the error
it returns with, if any. -/
def ensureDir (stat : StatResult) (mkdir : GoError) : GoError :=
  match stat with
  | StatResult.notExist => mkdir
  | StatResult.failed err => some err
  | StatResult.found => none

/-- Go `func NewProcessFiles` (lines 59-138). -/
def NewProcessFiles (env : Env) (inputPath : String) (options : List (Options → Options)) :
    M GoError := do
  let opt : Options := options.foldl (fun opt optFunc => optFunc opt)
    { X := none, Y := none, PDFPassword := none }
  if let some err := ensureDir env.statOutput env.mkdirOutput then return some err
  if let some err := ensureDir env.statImg env.mkdirImg then return some err
  match env.readDir inputPath with
  | Except.error err => return some err
  | Except.ok files =>
    NewProcessFiles_loop env inputPath opt files
    if let some err ← deleteFilesInFolder env "img" then return some err
    return none

/-! ## Specification-side definitions -/

/-- The claim of section 4.2 about one stamp position: the 75 x 75 footprint at
`(x, y)` lies inside the A4 page. -/
def footprintInside (x y : ℚ) : Prop :=
  0 ≤ x ∧ 0 ≤ y ∧ x + qrSize ≤ pageWidth ∧ y + qrSize ≤ pageHeight

/-- Coordinates of a position. -/
def PosQr.xy (p : PosQr) : ℚ × ℚ := (p.X, p.Y)

/-- Coordinates of a stamp: the four corners in source order, then the custom
position when there is one. -/
def Stamp.coords (a : Stamp) : List (ℚ × ℚ) × Option (ℚ × ℚ) :=
  ([a.TopLeft.xy, a.TopRight.xy, a.BottomLeft.xy, a.BottomRight.xy], a.CustomPos.map PosQr.xy)

/-- The reference plan of the spec (section 4.2, `plan(customXY)`): top-left
`(5, 5)`, top-right `(520, 5)`, bottom-left `(5, 770)`, bottom-right
`(520, 770)`, and a fifth position at `customXY` when it is supplied. -/
def referencePlan (customXY : Option (ℚ × ℚ)) : List (ℚ × ℚ) × Option (ℚ × ℚ) :=
  ([(5, 5), (520, 5), (5, 770), (520, 770)], customXY)

/-- The custom coordinates of the options (section 6: "`X`, `Y` - both required
together"). -/
def Options.customXY (opt : Options) : Option (ℚ × ℚ) :=
  match opt.X, opt.Y with
  | some x, some y => some (x, y)
  | _, _ => none

/-- Draws of one stamp position in `addQRCodeToPdf`: the token at `(X, Y)`, then
the badge at `(X + 30, Y + 30)`. -/
def drawsAt (pos : PosQr) : List Draw :=
  [{ image := pos.NameQr, x := pos.X, y := pos.Y, size := DrawSize.native },
   { image := privyResizedImg, x := pos.X + 30, y := pos.Y + 30, size := DrawSize.rect 15 15 }]

/-- Output pages `k + 1`, ..., `k + m`, each showing the source page of its
number under the same draws. -/
def pagesFrom (k m : Nat) (draws : List Draw) : List Page :=
  (List.range m).map fun i => { tpl := some (k + 1 + i), draws := draws }

/-! ## Relations between the world before and after a call -/

/-- A relation between the world before and the world after that is a preorder
and does not look at the log nor at the resized badge. -/
structure Frame (R : World → World → Prop) : Prop where
  refl : ∀ w, R w w
  trans : ∀ a b c, R a b → R b c → R a c
  log : ∀ w l, R w { w with log := l }
  resized : ∀ w b, R w { w with resized := b }

/-- Every run of the computation relates the world before to the world after. -/
structure Keeps (R : World → World → Prop) {α : Type} (m : M α) : Prop where
  run : ∀ w, R w (m w).2

/-- Nothing left `img/` and every token drawn in between, whose image was
written, is in `img/`. -/
def TokensKept (env : Env) (w w1 : World) : Prop :=
  w.nextUuid ≤ w1.nextUuid ∧ (∀ f ∈ w.img, f ∈ w1.img) ∧
    ∀ k, w.nextUuid ≤ k → k < w1.nextUuid → env.qrWriteOk k = true →
      (env.uuid k ++ ".png") ∈ w1.img

/-- Shape of an extension: a dot, then characters that are neither a dot nor a
separator. -/
def IsExt (ext : String) : Prop :=
  ∃ rest : List Char, ext.data = '.' :: rest ∧ ∀ c ∈ rest, c ≠ '.' ∧ c ≠ '/'

/-- Every document written in between was written to the target path. -/
def WritesOnly (target : String) (w w1 : World) : Prop :=
  ∀ pd ∈ w1.written, pd ∈ w.written ∨ pd.1 = target

/-! ## Success of every primitive -/

/-- Every primitive succeeds for these options: no library call returns an
error, the first page of every PDF imports, a custom position is configured,
and an encrypted PDF is decrypted by the configured password. -/
structure Succeeds (env : Env) (opt : Options) : Prop where
  customX : opt.X.isSome
  customY : opt.Y.isSome
  removeErr : ∀ p, env.removeErr p = none
  openErr : ∀ p, env.openErr p = none
  createErr : ∀ p, env.createErr p = none
  copyErr : ∀ p q, env.copyErr p q = none
  decodeErr : ∀ p, env.decodeErr p = none
  encodeErr : ∀ p, env.encodeErr p = none
  imageErr : ∀ p, env.imageErr p = none
  writePdfErr : ∀ p, env.writePdfErr p = none
  docxOpenErr : ∀ p, env.docxOpenErr p = none
  docxWriteErr : ∀ p, env.docxWriteErr p = none
  newImageErr : ∀ p, env.newImageErr p = none
  metadataErr : ∀ k, env.metadataErr k = none
  writeToFileErr : ∀ p, env.writeToFileErr p = none
  firstPage : ∀ p, (env.pdfPages p).head? = some PageImport.good
  newReaderErr : ∀ p, (env.reader p).newReaderErr = none
  isEncrypted : ∀ p, ∃ b, (env.reader p).isEncrypted = Except.ok b
  password : ∀ p, (env.reader p).isEncrypted = Except.ok true →
    ∃ pw, opt.PDFPassword = some pw ∧ (env.reader p).decrypt pw = (true, none)
  getNumPages : ∀ p, ∃ n, (env.reader p).getNumPages true = Except.ok n
  getPageErr : ∀ p k, (env.reader p).getPageErr k = none
  addPageErr : ∀ p k, (env.reader p).addPageErr k = none
  getPdfInfoErr : ∀ p, (env.reader p).getPdfInfoErr = none

/-- Path that the code computes for the output of a file: the joined path
itself for a PDF (line 159), otherwise the joined path with the selected
extension trimmed and `.pdf` appended (lines 113-114 and 191). -/
def outputPathOf (filePath extension : String) : String :=
  if extension = ".pdf" then filepath.Join "output" (filepath.Base filePath)
  else strings.TrimSuffix (filepath.Join "output" (filepath.Base filePath)) extension ++ ".pdf"

/-! ## Concrete environments and inputs -/

/-- Reader of an encrypted two-page PDF whose password is "secret". -/
def readerOk : Reader :=
  { newReaderErr := none,
    isEncrypted := Except.ok true,
    decrypt := fun password => (decide (password = "secret"), none),
    getNumPages := fun readable =>
      if readable then Except.ok 2 else Except.error "file need to be decrypted first",
    getPageErr := fun _ => none,
    addPageErr := fun _ => none,
    getPdfInfoErr := none,
    hasCreationDate := true }

/-- An environment in which every primitive succeeds: the two working
directories exist, the input directory is empty, gopdf sees two good pages in
every PDF and unipdf sees `readerOk`. -/
def envOk : Env :=
  { statOutput := StatResult.found, mkdirOutput := none,
    statImg := StatResult.found, mkdirImg := none,
    readDir := fun _ => Except.ok [],
    readDirImgErr := none,
    removeAllErr := fun _ => none,
    removeErr := fun _ => none,
    openErr := fun _ => none,
    createErr := fun _ => none,
    copyErr := fun _ _ => none,
    decodeErr := fun _ => none,
    encodeErr := fun _ => none,
    uuid := fun k => ⟨List.replicate (k + 1) 'u'⟩,
    qrWriteOk := fun _ => true,
    pdfPages := fun _ => [PageImport.good, PageImport.good],
    imageErr := fun _ => none,
    writePdfErr := fun _ => none,
    docxOpenErr := fun _ => none,
    docxWriteErr := fun _ => none,
    reader := fun _ => readerOk,
    newImageErr := fun _ => none,
    metadataErr := fun _ => none,
    writeToFileErr := fun _ => none }

/-- The empty world: nothing in `img/`, nothing written, nothing logged. -/
def world0 : World := { img := [], resized := false, written := [], nextUuid := 0, log := [] }

/-- The options of a call without any option function. -/
def noOptions : Options := { X := none, Y := none, PDFPassword := none }

/-- Options with a custom position at `(100, 200)`. -/
def customOptions : Options := { X := some 100, Y := some 200, PDFPassword := none }

/-- Options with a custom position and the password of `readerOk`. -/
def fullOptions : Options := { X := some 100, Y := some 200, PDFPassword := some "secret" }

/-- Options with a custom position and a password that `readerOk` rejects. -/
def wrongPasswordOptions : Options := { X := some 100, Y := some 200, PDFPassword := some "guess" }

/-- As `envOk`, but every PDF has three pages and gopdf panics on the second. -/
def envMalformed : Env :=
  { envOk with
    pdfPages := fun _ => [PageImport.good, PageImport.malformed "bad xref", PageImport.good] }

/-- As `envOk`, but neither gopdf nor the creator can write an output. -/
def envWriteFails : Env :=
  { envOk with writePdfErr := fun _ => some "disk full",
               writeToFileErr := fun _ => some "disk full" }

/-- As `envWriteFails`, on PDFs that are not encrypted. -/
def envWriteFailsPlain : Env :=
  { envWriteFails with reader := fun _ => { readerOk with isEncrypted := Except.ok false } }

/-- As `envOk`, but `img/` cannot be listed at the end of the batch. -/
def envPurgeFails : Env := { envOk with readDirImgErr := some "permission denied" }

/-- As `envOk`, on an input directory of two files, the first of which cannot
be opened. -/
def envOpenFails : Env :=
  { envOk with
    readDir := fun _ =>
      Except.ok [{ Name := "a.pdf", IsDir := false }, { Name := "b.png", IsDir := false }],
    openErr := fun p => if p = "in/a.pdf" then some "permission denied" else none }

/-- As `envOk`, on an input directory of one unencrypted PDF. -/
def envOnePdf : Env :=
  { envOk with
    readDir := fun _ => Except.ok [{ Name := "a.pdf", IsDir := false }],
    reader := fun _ => { readerOk with isEncrypted := Except.ok false } }

/-! ## Theorems -/

/-! ### Running the monad -/

theorem pure_run {α : Type} (a : α) (w : World) : (pure a : M α) w = (Outcome.ret a, w) := rfl

theorem bind_run {α β : Type} (m : M α) (f : α → M β) (w : World) :
    (m >>= f) w = match m w with
      | (Outcome.ret a, w1) => f a w1
      | (Outcome.panicked msg, w1) => (Outcome.panicked msg, w1)
      | (Outcome.exited, w1) => (Outcome.exited, w1) := rfl

theorem bind_ret {α β : Type} {m : M α} {f : α → M β} {w w1 : World} {a : α}
    (h : m w = (Outcome.ret a, w1)) : (m >>= f) w = f a w1 := by
  rw [bind_run, h]

theorem pure_bind_run {α β : Type} (a : α) (f : α → M β) (w : World) :
    (pure a >>= f) w = f a w := rfl

theorem onCurrent_append (pdf : Doc) (before : List Page) (p : Page) (f : Page → Page)
    (h : pdf.pages = before ++ [p]) :
    pdf.onCurrent f = { pdf with pages := before ++ [f p] } := by
  simp [Doc.onCurrent, h]

theorem addQRCodeToPdf_draw_ok (env : Env) (himg : ∀ p, env.imageErr p = none) :
    ∀ (positions : List PosQr) (pdf : Doc) (before : List Page) (cur : Page),
      pdf.pages = before ++ [cur] →
      addQRCodeToPdf_draw env positions pdf = Except.ok
        { pdf with pages := before ++ [{ cur with draws := cur.draws ++ positions.flatMap drawsAt }] } := by
  intro positions
  induction positions with
  | nil => intro pdf before cur h; simp [addQRCodeToPdf_draw, ← h]
  | cons pos rest ih =>
    intro pdf before cur h
    simp only [addQRCodeToPdf_draw, Image, himg, Doc.draw]
    rw [onCurrent_append pdf before cur _ h]
    rw [onCurrent_append _ before _ _ rfl]
    rw [ih _ before _ rfl]
    simp [drawsAt, qrSize]
    norm_num

theorem ImportPage_good (env : Env) (filename : String) (k : Nat) (w : World)
    (h : (env.pdfPages filename)[k]? = some PageImport.good) :
    ImportPage env filename (k + 1) w = (Outcome.ret (k + 1), w) := by
  simp [ImportPage, h, pure_run]

theorem importPdfPage_good (env : Env) (filename : String) (k : Nat) (w : World)
    (h : (env.pdfPages filename)[k]? = some PageImport.good) :
    (importPdfPage env filename (k + 1) w) = (Outcome.ret (k + 1, none), w) := by
  simp [importPdfPage, ImportPage_good env filename k w h]

theorem importPdfPage_bad (env : Env) (filename : String) (k : Nat) (w : World)
    (h : (env.pdfPages filename)[k]? ≠ some PageImport.good) :
    (importPdfPage env filename (k + 1) w)
      = (Outcome.ret (0, some "array index out of bounds"), w) := by
  unfold importPdfPage ImportPage
  cases hk : (env.pdfPages filename)[k]? with
  | none => simp [hk, panic]
  | some p =>
    cases p with
    | good => exact absurd hk h
    | malformed msg => simp [hk, panic]

theorem pagesFrom_succ (k m : Nat) (draws : List Draw) :
    pagesFrom k (m + 1) draws = { tpl := some (k + 1), draws := draws } :: pagesFrom (k + 1) m draws := by
  simp [pagesFrom, List.range_succ_eq_map, List.map_map, Function.comp_def]
  intro i _; omega

theorem AddPage_UseImportedTemplate (pdf : Doc) (t : Nat) :
    pdf.AddPage.UseImportedTemplate t
      = { pdf with pages := pdf.pages ++ [{ tpl := some t, draws := [] }] } := by
  simp [Doc.AddPage, Doc.UseImportedTemplate, Doc.onCurrent]

theorem addQRCodeToPdf_loop_ok (env : Env) (outputPath : String) (a : Stamp) (c : PosQr)
    (ha : a.CustomPos = some c) (himg : ∀ p, env.imageErr p = none)
    (n : Nat) (rest : List PageImport)
    (hpages : env.pdfPages outputPath = List.replicate n PageImport.good ++ rest)
    (hrest : rest.head? ≠ some PageImport.good) (D : List Draw)
    (hD : D = [a.TopLeft, a.TopRight, a.BottomLeft, a.BottomRight, c].flatMap drawsAt) :
    ∀ (m k rounds : Nat) (tpls : List Nat) (pdf : Doc) (before : List Page) (cur : Page)
      (w : World),
      k + m = n → tpls.length = k → m < rounds → pdf.pages = before ++ [cur] →
      addQRCodeToPdf_loop env outputPath a rounds k tpls pdf w =
        (Outcome.ret (Except.ok
          { pdf with pages := before ++ [{ cur with draws := cur.draws ++ D }] ++
              pagesFrom k m D }), w) := by
  intro m
  induction m with
  | zero =>
    intro k rounds tpls pdf before cur w hk ht hr hp
    obtain ⟨r, rfl⟩ : ∃ r, rounds = r + 1 := ⟨rounds - 1, by omega⟩
    have hbad : (env.pdfPages outputPath)[k]? ≠ some PageImport.good := by
      have : k = n := by omega
      subst this
      rw [hpages]
      simp [List.getElem?_append_right, List.head?_eq_getElem?] at hrest ⊢
      exact hrest
    simp only [addQRCodeToPdf_loop, addQRCodeToPdf_positions, deref, ha, bind_run, pure_run,
      addQRCodeToPdf_draw_ok env himg _ pdf before cur hp, importPdfPage_bad env outputPath k w hbad,
      ← hD]
    simp [pagesFrom, pure_run]
  | succ m ih =>
    intro k rounds tpls pdf before cur w hk ht hr hp
    obtain ⟨r, rfl⟩ : ∃ r, rounds = r + 1 := ⟨rounds - 1, by omega⟩
    have hgood : (env.pdfPages outputPath)[k]? = some PageImport.good := by
      rw [hpages, List.getElem?_append_left (by simp; omega)]
      simp [List.getElem?_replicate]; omega
    have hidx : (tpls ++ [k + 1])[k]? = some (k + 1) := by
      rw [List.getElem?_append_right (by omega)]
      simp [ht]
    simp only [addQRCodeToPdf_loop, addQRCodeToPdf_positions, deref, ha, bind_run, pure_run,
      addQRCodeToPdf_draw_ok env himg _ pdf before cur hp, importPdfPage_good env outputPath k w hgood,
      ← hD, index, Nat.add_sub_cancel, hidx, AddPage_UseImportedTemplate, Option.isSome_none]
    simp only [Bool.false_eq_true, if_false, bind_run, pure_run]
    rw [ih (k + 1) r (tpls ++ [k + 1]) _ (before ++ [{ cur with draws := cur.draws ++ D }])
      { tpl := some (k + 1), draws := [] } w (by omega) (by simp [ht]) (by omega) rfl]
    simp [pagesFrom_succ]

theorem resizeImage_ok (env : Env) (w : World)
    (hresize : env.openErr privyImg = none ∧ env.decodeErr privyImg = none ∧
      env.createErr privyResizedImg = none ∧ env.encodeErr privyResizedImg = none) :
    resizeImage env privyImg privyResizedImg w = (Outcome.ret none, { w with resized := true }) := by
  obtain ⟨h1, h2, h3, h4⟩ := hresize
  simp [resizeImage, h1, h2, h3, h4, bind_run, pure_run, modifyWorld]

theorem addQRCodeToPdf_stamp_custom (env : Env) (opt : Options) (w : World) (x y : ℚ)
    (hx : opt.X = some x) (hy : opt.Y = some y) :
    ∃ (a : Stamp) (c : PosQr) (w1 : World),
      addQRCodeToPdf_stamp env opt w = (Outcome.ret a, w1) ∧
      a.CustomPos = some c ∧ c.xy = (x, y) ∧ w1.written = w.written ∧ w1.log = w.log := by
  rcases opt with ⟨ox, oy, pw⟩
  simp only at hx hy
  subst hx hy
  exact ⟨_, _, _, rfl, rfl, rfl, rfl, rfl⟩

/-- The run of `addQRCodeToPdf` when a custom position is configured, the file
has n >= 1 good pages before the first page that fails to import, and every
other primitive succeeds: it returns nil and writes n pages, each with the
token and badge of the five positions. -/
theorem addQRCodeToPdf_ok (env : Env) (outputPath : String) (opt : Options) (w : World)
    (x y : ℚ) (n : Nat) (rest : List PageImport)
    (hx : opt.X = some x) (hy : opt.Y = some y) (hn : 0 < n)
    (hpages : env.pdfPages outputPath = List.replicate n PageImport.good ++ rest)
    (hrest : rest.head? ≠ some PageImport.good)
    (hresize : env.openErr privyImg = none ∧ env.decodeErr privyImg = none ∧
      env.createErr privyResizedImg = none ∧ env.encodeErr privyResizedImg = none)
    (himg : ∀ p, env.imageErr p = none)
    (hremove : env.removeErr privyResizedImg = none)
    (hwrite : env.writePdfErr outputPath = none) :
    ∃ (a : Stamp) (c : PosQr) (doc : Doc),
      (addQRCodeToPdf_stamp env opt { w with resized := true }).1 = Outcome.ret a ∧
      a.CustomPos = some c ∧ c.xy = (x, y) ∧
      (addQRCodeToPdf env outputPath opt w).1 = Outcome.ret none ∧
      (addQRCodeToPdf env outputPath opt w).2.written = (outputPath, doc) :: w.written ∧
      doc.pages = pagesFrom 0 n
        ([a.TopLeft, a.TopRight, a.BottomLeft, a.BottomRight, c].flatMap drawsAt) := by
  obtain ⟨a, c, w1, hst, hc, hxy, hw1, -⟩ :=
    addQRCodeToPdf_stamp_custom env opt { w with resized := true } x y hx hy
  obtain ⟨m, rfl⟩ : ∃ m, n = m + 1 := ⟨n - 1, by omega⟩
  have h1 : (env.pdfPages outputPath)[0]? = some PageImport.good := by
    rw [hpages]; simp [List.replicate_succ]
  have hloop := addQRCodeToPdf_loop_ok env outputPath a c hc himg (m + 1) rest hpages hrest _ rfl
    m 1 ((env.pdfPages outputPath).length + 1) [1]
    { Doc.start with pages := Doc.start.pages ++ [{ tpl := some 1, draws := [] }] } []
    { tpl := some 1, draws := [] } w1 (by omega) rfl (by rw [hpages]; simp; omega) rfl
  have hrun : addQRCodeToPdf env outputPath opt w =
      (Outcome.ret none, { w1 with
        resized := false,
        written := (outputPath, setMetaData { Doc.start with
          pages := pagesFrom 0 (m + 1)
            ([a.TopLeft, a.TopRight, a.BottomLeft, a.BottomRight, c].flatMap drawsAt) })
          :: w1.written }) := by
    simp only [addQRCodeToPdf, bind_run, pure_run, resizeImage_ok env w hresize, hst,
      ImportPage_good env outputPath 0 _ h1, index, AddPage_UseImportedTemplate,
      List.getElem?_cons_zero, hloop, osRemove, hremove, hwrite, modifyWorld]
    simp [privyResizedImg, pagesFrom_succ 0 m, Doc.start]
  refine ⟨a, c, _, by rw [hst], hc, hxy, by rw [hrun], by rw [hrun, ← hw1], ?_⟩
  simp [setMetaData]

/-! ### The round count of the page loop -/

theorem importPdfPage_ret (env : Env) (filename : String) (pageno : Nat) (w : World) :
    (∃ tpl, (importPdfPage env filename pageno w) = (Outcome.ret (tpl, none), w) ∧
        pageno ≤ (env.pdfPages filename).length) ∨
      (importPdfPage env filename pageno w)
        = (Outcome.ret (0, some "array index out of bounds"), w) := by
  unfold importPdfPage ImportPage
  by_cases h0 : pageno = 0
  · right; simp [h0, panic]
  · cases hk : (env.pdfPages filename)[pageno - 1]? with
    | none => right; simp [h0, hk, panic]
    | some p =>
      cases p with
      | good =>
        left
        have hlt := (List.getElem?_eq_some_iff.mp hk).1
        exact ⟨pageno, by simp [h0, hk, pure_run], by omega⟩
      | malformed msg => right; simp [h0, hk, panic]

/-- The count of rounds of the loop of `addQRCodeToPdf` is never used up: from
a page number within the file, any two counts that exceed the pages left give
the same run. -/
theorem addQRCodeToPdf_loop_rounds (env : Env) (outputPath : String) (a : Stamp) :
    ∀ (r1 r2 pageno : Nat) (tpls : List Nat) (pdf : Doc) (w : World),
      pageno ≤ (env.pdfPages outputPath).length →
      (env.pdfPages outputPath).length < pageno + r1 →
      (env.pdfPages outputPath).length < pageno + r2 →
      addQRCodeToPdf_loop env outputPath a r1 pageno tpls pdf w
        = addQRCodeToPdf_loop env outputPath a r2 pageno tpls pdf w := by
  intro r1
  induction r1 with
  | zero => intro r2 pageno tpls pdf w h1 h2 _; omega
  | succ k ih =>
    intro r2 pageno tpls pdf w h1 h2 h3
    obtain ⟨j, rfl⟩ : ∃ j, r2 = j + 1 := ⟨r2 - 1, by omega⟩
    simp only [addQRCodeToPdf_loop, bind_run]
    cases hp : addQRCodeToPdf_positions a w with
    | mk o w1 =>
      cases o with
      | panicked msg => rfl
      | exited => rfl
      | ret positions =>
        simp only []
        cases addQRCodeToPdf_draw env positions pdf with
        | error e => rfl
        | ok pdf1 =>
          simp only [bind_run]
          rcases importPdfPage_ret env outputPath (pageno + 1) w1 with ⟨tpl, himp, hle⟩ | himp
          · rw [himp]
            simp only [Option.isSome_none, Bool.false_eq_true, if_false, bind_run, pure_run]
            cases hi : index (tpls ++ [tpl]) (pageno + 1 - 1) w1 with
            | mk o2 w2 =>
              cases o2 with
              | panicked msg => rfl
              | exited => rfl
              | ret t => exact ih j (pageno + 1) _ _ w2 hle (by omega) (by omega)
          · rw [himp]
            rfl

/-! ### What every call keeps -/

theorem keeps_pure {R : World → World → Prop} (hR : Frame R) {α : Type} (a : α) :
    Keeps R (pure a : M α) := ⟨fun w => hR.refl w⟩

theorem keeps_bind {R : World → World → Prop} (hR : Frame R) {α β : Type} {m : M α}
    {f : α → M β} (hm : Keeps R m) (hf : ∀ a, Keeps R (f a)) : Keeps R (m >>= f) := by
  constructor
  intro w
  have h1 := hm.run w
  rw [bind_run]
  cases h : m w with
  | mk o w1 =>
    rw [h] at h1
    cases o with
    | ret a => exact hR.trans _ _ _ h1 ((hf a).run w1)
    | panicked msg => exact h1
    | exited => exact h1

theorem keeps_panic {R : World → World → Prop} (hR : Frame R) {α : Type} (msg : String) :
    Keeps R (panic msg : M α) := ⟨fun w => hR.refl w⟩

theorem keeps_fatalf {R : World → World → Prop} (hR : Frame R) {α : Type} (msg : String) :
    Keeps R (fatalf msg : M α) := ⟨fun w => hR.log w _⟩

theorem keeps_logLine {R : World → World → Prop} (hR : Frame R) (l : LogLine) :
    Keeps R (logLine l) := ⟨fun w => hR.log w _⟩

theorem keeps_deref {R : World → World → Prop} (hR : Frame R) {α : Type} (o : Option α) :
    Keeps R (deref o) := by
  cases o with
  | none => exact keeps_panic hR _
  | some a => exact keeps_pure hR a

theorem keeps_index {R : World → World → Prop} (hR : Frame R) {α : Type} (xs : List α) (i : Nat) :
    Keeps R (index xs i) := by
  unfold index
  split
  · exact keeps_pure hR _
  · exact keeps_panic hR _

theorem keeps_setResized {R : World → World → Prop} (hR : Frame R) (c : Prop) [Decidable c]
    (b : Bool) :
    Keeps R (modifyWorld fun w => if c then { w with resized := b } else w) := by
  constructor
  intro w
  simp only [modifyWorld]
  split
  · exact hR.resized w b
  · exact hR.refl w

theorem keeps_written {R : World → World → Prop} (path : String)
    (hwrite : ∀ w d, R w { w with written := (path, d) :: w.written }) (d : Doc) :
    Keeps R (modifyWorld fun w => { w with written := (path, d) :: w.written }) :=
  ⟨fun w => hwrite w d⟩

theorem keeps_resizeImage {R : World → World → Prop} (hR : Frame R) (env : Env)
    (inputPath outputPath : String) : Keeps R (resizeImage env inputPath outputPath) := by
  simp only [resizeImage]
  repeat' first
    | exact keeps_pure hR _
    | exact keeps_setResized hR _ _
    | apply keeps_bind hR
    | intro _
    | split

theorem keeps_osRemove {R : World → World → Prop} (hR : Frame R) (env : Env)
    (path : String) : Keeps R (osRemove env path) := by
  simp only [osRemove]
  repeat' first
    | exact keeps_pure hR _
    | exact keeps_setResized hR _ _
    | apply keeps_bind hR
    | intro _
    | split

theorem keeps_ImportPage {R : World → World → Prop} (hR : Frame R) (env : Env)
    (filename : String) (pageno : Nat) : Keeps R (ImportPage env filename pageno) := by
  simp only [ImportPage]
  repeat' first
    | exact keeps_pure hR _
    | exact keeps_panic hR _
    | split

theorem keeps_importPdfPage {R : World → World → Prop} (hR : Frame R) (env : Env)
    (filename : String) (pageno : Nat) : Keeps R (importPdfPage env filename pageno) := by
  constructor
  intro w
  have h := (keeps_ImportPage hR env filename pageno).run w
  simp only [importPdfPage]
  split <;> simp_all

theorem keeps_addQRCodeToPdf_loop {R : World → World → Prop} (hR : Frame R) (env : Env)
    (outputPath : String) (a : Stamp) :
    ∀ (rounds pageno : Nat) (tpls : List Nat) (pdf : Doc),
      Keeps R (addQRCodeToPdf_loop env outputPath a rounds pageno tpls pdf) := by
  intro rounds
  induction rounds with
  | zero => intro pageno tpls pdf; exact keeps_panic hR _
  | succ r ih =>
    intro pageno tpls pdf
    simp only [addQRCodeToPdf_loop, addQRCodeToPdf_positions]
    repeat' first
      | exact keeps_pure hR _
      | exact keeps_deref hR _
      | exact keeps_index hR _ _
      | exact keeps_importPdfPage hR _ _ _
      | exact ih _ _ _
      | apply keeps_bind hR
      | intro _
      | split

theorem keeps_addQRCodeToPdf_stamp {R : World → World → Prop} (hR : Frame R) (env : Env)
    (hgen : Keeps R (generateQR env)) (opt : Options) :
    Keeps R (addQRCodeToPdf_stamp env opt) := by
  simp only [addQRCodeToPdf_stamp]
  repeat' first
    | exact keeps_pure hR _
    | exact hgen
    | apply keeps_bind hR
    | intro _
    | split

theorem keeps_processPasswordProtectedPdf_stamp {R : World → World → Prop} (hR : Frame R)
    (env : Env) (hgen : Keeps R (generateQR env)) (opt : Options) :
    Keeps R (processPasswordProtectedPdf_stamp env opt) := by
  simp only [processPasswordProtectedPdf_stamp]
  repeat' first
    | exact keeps_pure hR _
    | exact hgen
    | apply keeps_bind hR
    | intro _
    | split

theorem keeps_addQRCodeToPdf {R : World → World → Prop} (hR : Frame R) (env : Env)
    (hgen : Keeps R (generateQR env)) (outputPath : String)
    (hwrite : ∀ w d, R w { w with written := (outputPath, d) :: w.written }) (opt : Options) :
    Keeps R (addQRCodeToPdf env outputPath opt) := by
  simp only [addQRCodeToPdf]
  repeat' first
    | exact keeps_pure hR _
    | exact keeps_resizeImage hR _ _ _
    | exact keeps_addQRCodeToPdf_stamp hR env hgen _
    | exact keeps_ImportPage hR _ _ _
    | exact keeps_index hR _ _
    | exact keeps_addQRCodeToPdf_loop hR _ _ _ _ _ _ _
    | exact keeps_osRemove hR _ _
    | exact keeps_written outputPath hwrite _
    | apply keeps_bind hR
    | intro _
    | split

theorem keeps_copyPdfContent {R : World → World → Prop} (hR : Frame R) (env : Env)
    (srcPath dstPath : String) : Keeps R (copyPdfContent env srcPath dstPath) := by
  simp only [copyPdfContent]
  repeat' first
    | exact keeps_pure hR _
    | apply keeps_bind hR
    | intro _
    | split

theorem keeps_convertImageToPdf {R : World → World → Prop} (hR : Frame R) (env : Env)
    (imagePath pdfPath : String)
    (hwrite : ∀ w d, R w { w with written := (pdfPath, d) :: w.written }) :
    Keeps R (convertImageToPdf env imagePath pdfPath) := by
  simp only [convertImageToPdf]
  repeat' first
    | exact keeps_pure hR _
    | exact keeps_written pdfPath hwrite _
    | apply keeps_bind hR
    | intro _
    | split

theorem keeps_convertDocxToPdf {R : World → World → Prop} (hR : Frame R) (env : Env)
    (docxPath outPath : String) : Keeps R (convertDocxToPdf env docxPath outPath) := by
  simp only [convertDocxToPdf]
  repeat' first
    | exact keeps_pure hR _
    | exact keeps_fatalf hR _
    | apply keeps_bind hR
    | intro _
    | split

theorem keeps_processPasswordProtectedPdf_loop {R : World → World → Prop} (hR : Frame R)
    (env : Env) (r : Reader) (a : Stamp) :
    ∀ (todo pageNum : Nat) (c : Doc),
      Keeps R (processPasswordProtectedPdf_loop env r a todo pageNum c) := by
  intro todo
  induction todo with
  | zero => intro pageNum c; exact keeps_pure hR _
  | succ n ih =>
    intro pageNum c
    simp only [processPasswordProtectedPdf_loop, processPasswordProtectedPdf_positions]
    repeat' first
      | exact keeps_pure hR _
      | exact keeps_deref hR _
      | exact ih _ _
      | apply keeps_bind hR
      | intro _
      | split

theorem keeps_processPasswordProtectedPdf_metadata {R : World → World → Prop} (hR : Frame R)
    (env : Env) (r : Reader) : Keeps R (processPasswordProtectedPdf_metadata env r) := by
  simp only [processPasswordProtectedPdf_metadata]
  repeat' first
    | exact keeps_pure hR _
    | exact keeps_fatalf hR _
    | apply keeps_bind hR
    | intro _
    | split

theorem keeps_WriteToFile {R : World → World → Prop} (hR : Frame R) (env : Env) (c : Doc)
    (opt : Options) (outputPath : String)
    (hwrite : ∀ w d, R w { w with written := (outputPath, d) :: w.written }) :
    Keeps R (WriteToFile env c opt outputPath) := by
  simp only [WriteToFile]
  repeat' first
    | exact keeps_pure hR _
    | exact keeps_deref hR _
    | exact keeps_written outputPath hwrite _
    | apply keeps_bind hR
    | intro _
    | split

theorem keeps_processPasswordProtectedPdf {R : World → World → Prop} (hR : Frame R)
    (env : Env) (hgen : Keeps R (generateQR env)) (filePath : String) (opt : Options)
    (outputPath : String)
    (hwrite : ∀ w d, R w { w with written := (outputPath, d) :: w.written }) :
    Keeps R (processPasswordProtectedPdf env filePath opt outputPath) := by
  simp only [processPasswordProtectedPdf]
  repeat' first
    | exact keeps_pure hR _
    | exact keeps_deref hR _
    | exact keeps_resizeImage hR _ _ _
    | exact keeps_processPasswordProtectedPdf_stamp hR env hgen _
    | exact keeps_processPasswordProtectedPdf_loop hR _ _ _ _ _ _
    | exact keeps_processPasswordProtectedPdf_metadata hR _ _
    | exact keeps_WriteToFile hR _ _ _ _ hwrite
    | apply keeps_bind hR
    | intro _
    | split

theorem keeps_processFile {R : World → World → Prop} (hR : Frame R)
    (env : Env) (hgen : Keeps R (generateQR env)) (filePath extension : String) (opt : Options)
    (hpdf : extension = ".pdf" →
      ∀ w d, R w { w with written :=
        (filepath.Join "output" (filepath.Base filePath), d) :: w.written })
    (himage : extension ≠ ".pdf" →
      ∀ w d, R w { w with written :=
        (strings.TrimSuffix (filepath.Join "output" (filepath.Base filePath)) extension ++ ".pdf",
          d) :: w.written }) :
    Keeps R (processFile env filePath extension opt) := by
  simp only [processFile, initLicense]
  by_cases hext : extension = ".pdf"
  · have hw := hpdf hext
    rw [if_pos hext]
    repeat' first
      | exact keeps_pure hR _
      | exact keeps_logLine hR _
      | exact keeps_copyPdfContent hR _ _ _
      | exact keeps_addQRCodeToPdf hR env hgen _ hw _
      | exact keeps_processPasswordProtectedPdf hR env hgen _ _ _ hw
      | apply keeps_bind hR
      | intro _
      | split
  · have hw := himage hext
    rw [if_neg hext]
    repeat' first
      | exact keeps_pure hR _
      | exact keeps_logLine hR _
      | exact keeps_convertImageToPdf hR _ _ _ hw
      | exact keeps_addQRCodeToPdf hR env hgen _ hw _
      | apply keeps_bind hR
      | intro _
      | split

theorem keeps_NewProcessFiles_entry {R : World → World → Prop} (hR : Frame R)
    (env : Env) (hgen : Keeps R (generateQR env)) (inputPath : String) (opt : Options)
    (file : DirEntry)
    (hpdf : strings.ToLower (filepath.Ext (filepath.Join inputPath file.Name)) = ".pdf" →
      ∀ w d, R w { w with written :=
        (filepath.Join "output" (filepath.Base (filepath.Join inputPath file.Name)), d)
          :: w.written })
    (hother : strings.ToLower (filepath.Ext (filepath.Join inputPath file.Name)) ≠ ".pdf" →
      ∀ w d, R w { w with written :=
        (strings.TrimSuffix
            (filepath.Join "output" (filepath.Base (filepath.Join inputPath file.Name)))
            (strings.ToLower (filepath.Ext (filepath.Join inputPath file.Name))) ++ ".pdf", d)
          :: w.written }) :
    Keeps R (NewProcessFiles_entry env inputPath opt file) := by
  simp only [NewProcessFiles_entry, initLicense]
  repeat' first
    | exact keeps_pure hR _
    | exact keeps_logLine hR _
    | exact keeps_processFile hR env hgen _ _ _ hpdf hother
    | exact keeps_convertDocxToPdf hR _ _ _
    | (refine keeps_addQRCodeToPdf hR env hgen _ (hother ?_) _
       simp_all)
    | apply keeps_bind hR
    | intro _
    | split

theorem tokensKept_frame (env : Env) : Frame (TokensKept env) where
  refl := fun w => ⟨le_refl _, fun _ h => h, fun k h1 h2 => by omega⟩
  trans := by
    rintro a b c ⟨h1, h2, h3⟩ ⟨g1, g2, g3⟩
    refine ⟨le_trans h1 g1, fun f hf => g2 f (h2 f hf), fun k hk1 hk2 hk => ?_⟩
    by_cases hkb : k < b.nextUuid
    · exact g2 _ (h3 k hk1 hkb hk)
    · exact g3 k (by omega) hk2 hk
  log := fun w l => ⟨le_refl _, fun _ h => h, fun k h1 h2 => by simp at h2; omega⟩
  resized := fun w b => ⟨le_refl _, fun _ h => h, fun k h1 h2 => by simp at h2; omega⟩

theorem tokensKept_generateQR (env : Env) : Keeps (TokensKept env) (generateQR env) := by
  constructor
  intro w
  simp only [generateQR, TokensKept]
  refine ⟨by omega, ?_, ?_⟩
  · intro f hf
    split
    · exact List.mem_insert_of_mem hf
    · exact hf
  · intro k hk1 hk2 hk
    have : k = w.nextUuid := by omega
    subst this
    simp [hk]

theorem tokensKept_written (env : Env) (path : String) (w : World) (d : Doc) :
    TokensKept env w { w with written := (path, d) :: w.written } :=
  ⟨le_refl _, fun _ h => h, fun k h1 h2 => by simp at h2; omega⟩

theorem deleteFilesInFolder_loop_empties (env : Env) (folderPath : String) :
    ∀ (files : List String) (w w1 : World), w.img = files →
      deleteFilesInFolder_loop env folderPath files w = (Outcome.ret none, w1) →
      w1.img = [] := by
  intro files
  induction files with
  | nil =>
    intro w w1 himg h
    simp only [deleteFilesInFolder_loop, pure_run, Prod.mk.injEq] at h
    rw [← h.2, himg]
  | cons name rest ih =>
    intro w w1 himg h
    simp only [deleteFilesInFolder_loop] at h
    cases hrm : env.removeAllErr (filepath.Join folderPath name) with
    | some e => simp [hrm, pure_run] at h
    | none =>
      simp only [hrm, bind_run, pure_run, modifyWorld] at h
      exact ih _ w1 (by simp [himg]) h

theorem deleteFilesInFolder_empties (env : Env) (folderPath : String) (w w1 : World)
    (h : deleteFilesInFolder env folderPath w = (Outcome.ret none, w1)) : w1.img = [] := by
  simp only [deleteFilesInFolder] at h
  cases hrd : env.readDirImgErr with
  | some e => simp [hrd, pure_run] at h
  | none =>
    simp only [hrd, bind_run, pure_run, getWorld] at h
    exact deleteFilesInFolder_loop_empties env folderPath _ w w1 rfl h

theorem NewProcessFiles_empties (env : Env) (inputPath : String)
    (options : List (Options → Options)) (w : World)
    (h : (NewProcessFiles env inputPath options w).1 = Outcome.ret none) :
    (NewProcessFiles env inputPath options w).2.img = [] := by
  simp only [NewProcessFiles] at h ⊢
  cases h1 : ensureDir env.statOutput env.mkdirOutput with
  | some e1 => simp [h1, pure_run] at h
  | none =>
    cases h2 : ensureDir env.statImg env.mkdirImg with
    | some e2 => simp [h1, h2, pure_run, bind_run] at h
    | none =>
      cases h3 : env.readDir inputPath with
      | error e3 => simp [h1, h2, h3, pure_run, bind_run] at h
      | ok files =>
        simp only [h1, h2, h3, pure_run, bind_run] at h ⊢
        cases h4 : NewProcessFiles_loop env inputPath
            (options.foldl (fun opt optFunc => optFunc opt)
              { X := none, Y := none, PDFPassword := none }) files w with
        | mk o w1 =>
          cases o with
          | panicked msg => simp [h4] at h
          | exited => simp [h4] at h
          | ret u =>
            cases h5 : deleteFilesInFolder env "img" w1 with
            | mk o2 w2 =>
              cases o2 with
              | panicked msg => simp [h4, h5] at h
              | exited => simp [h4, h5] at h
              | ret r =>
                cases r with
                | some e5 => simp [h4, h5, pure_run, bind_run] at h
                | none =>
                  simp only [h4, h5, pure_run, bind_run]
                  exact deleteFilesInFolder_empties env "img" w1 w2 h5

/-! ### Paths -/

theorem toLower_eq_dot (c : Char) (h : Char.toLower c = '.') : c = '.' := by
  unfold Char.toLower at h
  simp only at h
  split at h
  · rename_i hr
    obtain ⟨h1, h2⟩ := hr
    generalize c.toNat = n at h h1 h2
    exfalso
    interval_cases n <;> revert h <;> decide
  · exact h

theorem ne_sep_of_toLower (c l : Char) (h : Char.toLower c = l) (h1 : l ≠ '.') (h2 : l ≠ '/') :
    c ≠ '.' ∧ c ≠ '/' := by
  constructor
  · rintro rfl
    exact h1 (h ▸ by decide)
  · rintro rfl
    exact h2 (h ▸ by decide)

theorem extAux_skip : ∀ (l acc more : List Char), (∀ c ∈ l, c ≠ '.' ∧ c ≠ '/') →
    extAux (l ++ '.' :: more) acc = '.' :: (l.reverse ++ acc) := by
  intro l
  induction l with
  | nil => intro acc more _; simp [extAux]
  | cons c l ih =>
    intro acc more h
    have hc := h c (List.mem_cons_self _ _)
    simp only [List.cons_append, extAux, hc.1, hc.2, if_false]
    have := ih (c :: acc) more (fun d hd => h d (List.mem_cons_of_mem _ hd))
    simpa using this

theorem isExt_of_map (ext lower : List Char) (h : ext.map Char.toLower = '.' :: lower)
    (hl : ∀ c ∈ lower, c ≠ '.' ∧ c ≠ '/') :
    ∃ rest : List Char, ext = '.' :: rest ∧ ∀ c ∈ rest, c ≠ '.' ∧ c ≠ '/' := by
  obtain ⟨a, rest, rfl, ha, hrest⟩ := List.map_eq_cons_iff.mp h
  refine ⟨rest, by rw [toLower_eq_dot a ha], fun c hc => ?_⟩
  have hmem : Char.toLower c ∈ lower := hrest ▸ List.mem_map_of_mem _ hc
  exact ne_sep_of_toLower c _ rfl (hl _ hmem).1 (hl _ hmem).2

theorem isExt_of_toLower (ext : String)
    (h : strings.ToLower ext ∈ [".pdf", ".jpg", ".jpeg", ".png", ".docx"]) : IsExt ext := by
  simp only [List.mem_cons, List.mem_singleton, List.not_mem_nil, or_false, strings.ToLower,
    String.ext_iff] at h
  rcases h with h | h | h | h | h <;>
    exact isExt_of_map ext.data _ h (by decide)

theorem Join_data (inputPath base ext : String) (hext : IsExt ext) :
    ∃ pre : List Char, (filepath.Join inputPath (base ++ ext)).data = pre ++ (base.data ++ ext.data) ∧
      (pre = [] ∨ ∃ dir, pre = dir ++ ['/']) := by
  obtain ⟨rest, hdata, -⟩ := hext
  unfold filepath.Join
  split
  · exact ⟨[], by simp, Or.inl rfl⟩
  · split
    · rename_i h; simp [hdata] at h
    · exact ⟨inputPath.data ++ ['/'], by simp, Or.inr ⟨_, rfl⟩⟩

theorem Ext_Join (inputPath base ext : String) (hext : IsExt ext) :
    filepath.Ext (filepath.Join inputPath (base ++ ext)) = ext := by
  obtain ⟨pre, hpre, -⟩ := Join_data inputPath base ext hext
  obtain ⟨rest, hdata, hrest⟩ := hext
  have hrev : ∀ c ∈ rest.reverse, c ≠ '.' ∧ c ≠ '/' := fun c hc => hrest c (List.mem_reverse.mp hc)
  apply String.ext
  simp only [filepath.Ext, hpre, hdata, List.reverse_append, List.reverse_cons, List.append_assoc,
    List.singleton_append, List.cons_append]
  rw [extAux_skip _ _ _ hrev]; simp

theorem takeWhile_append_sep (l more : List Char) (h : ∀ c ∈ l, c ≠ '/') :
    (l ++ '/' :: more).takeWhile (fun c => c != '/') = l := by
  induction l with
  | nil => simp
  | cons c l ih =>
    have hc := h c (List.mem_cons_self _ _)
    simp [List.takeWhile_cons, hc, ih (fun d hd => h d (List.mem_cons_of_mem _ hd))]

theorem takeWhile_all (l : List Char) (h : ∀ c ∈ l, c ≠ '/') :
    l.takeWhile (fun c => c != '/') = l := by
  induction l with
  | nil => simp
  | cons c l ih =>
    have hc := h c (List.mem_cons_self _ _)
    simp [List.takeWhile_cons, hc, ih (fun d hd => h d (List.mem_cons_of_mem _ hd))]

theorem Base_Join (inputPath base ext : String) (hbase : '/' ∉ base.data) (hext : IsExt ext) :
    filepath.Base (filepath.Join inputPath (base ++ ext)) = base ++ ext := by
  obtain ⟨pre, hpre, hshape⟩ := Join_data inputPath base ext hext
  obtain ⟨rest, hdata, hrest⟩ := hext
  have hname : ∀ c ∈ (base.data ++ ext.data).reverse, c ≠ '/' := by
    intro c hc
    rw [List.mem_reverse, List.mem_append, hdata] at hc
    rcases hc with hc | hc
    · rintro rfl; exact hbase hc
    · rcases List.mem_cons.mp hc with rfl | hc
      · decide
      · exact (hrest c hc).2
  have hne : base.data ++ ext.data ≠ [] := by simp [hdata]
  apply String.ext
  rw [String.data_append]
  unfold filepath.Base
  rw [if_neg (by rw [hpre]; simp [hdata])]
  simp only [hpre]
  generalize base.data ++ ext.data = name at hname hne
  obtain ⟨c0, tl, htl⟩ := List.exists_cons_of_ne_nil (by simpa using hne : name.reverse ≠ [])
  have hc0 : c0 ≠ '/' := hname c0 (htl ▸ List.mem_cons_self _ _)
  rw [List.reverse_append, htl, List.cons_append,
    List.dropWhile_cons_of_neg (by simpa using hc0), ← List.cons_append, ← htl]
  rcases hshape with rfl | ⟨dir, rfl⟩
  · simp only [List.reverse_nil, List.append_nil]
    rw [takeWhile_all _ hname]
    simp [hne]
  · simp only [List.reverse_append, List.reverse_cons, List.reverse_nil, List.nil_append,
      List.singleton_append]
    rw [takeWhile_append_sep _ _ hname]
    simp [hne]

theorem TrimSuffix_Join (base ext : String) (hext : IsExt ext) :
    strings.TrimSuffix (filepath.Join "output" (base ++ ext)) ext ++ ".pdf"
      = "output/" ++ base ++ ".pdf" := by
  obtain ⟨rest, hdata, -⟩ := hext
  apply String.ext
  have hj : (filepath.Join "output" (base ++ ext)).data
      = ("output/".data ++ base.data) ++ ext.data := by
    unfold filepath.Join
    rw [if_neg (by decide), if_neg (by simp [hdata])]
    simp
  have hsuf : ext.data.isSuffixOf (filepath.Join "output" (base ++ ext)).data = true := by
    rw [List.isSuffixOf_iff_suffix, hj]
    exact List.suffix_append _ _
  unfold strings.TrimSuffix
  rw [if_pos hsuf, String.data_append, String.data_append, String.data_append]
  simp only [hj]
  rw [List.take_left' (by simp; omega)]

theorem writesOnly_frame (target : String) : Frame (WritesOnly target) where
  refl := fun _ _ h => Or.inl h
  trans := by
    intro a b c h1 h2 pd hpd
    rcases h2 pd hpd with h | h
    · exact h1 pd h
    · exact Or.inr h
  log := fun _ _ _ h => Or.inl h
  resized := fun _ _ _ h => Or.inl h

theorem writesOnly_generateQR (target : String) (env : Env) :
    Keeps (WritesOnly target) (generateQR env) :=
  ⟨fun _ _ h => Or.inl h⟩

theorem writesOnly_written (target : String) (w : World) (d : Doc) :
    WritesOnly target w { w with written := (target, d) :: w.written } := by
  intro pd hpd
  rcases List.mem_cons.mp hpd with rfl | h
  · exact Or.inr rfl
  · exact Or.inl h

theorem toLower_of_mem (ext : String)
    (h : ext ∈ [".pdf", ".jpg", ".jpeg", ".png", ".docx"]) : strings.ToLower ext = ext := by
  simp only [List.mem_cons, List.mem_singleton, List.not_mem_nil, or_false] at h
  rcases h with rfl | rfl | rfl | rfl | rfl <;> decide

/-! ### Runs in which every primitive succeeds -/

theorem good_run : ∀ l : List PageImport, ∃ (n : Nat) (rest : List PageImport),
    l = List.replicate n PageImport.good ++ rest ∧ rest.head? ≠ some PageImport.good := by
  intro l
  induction l with
  | nil => exact ⟨0, [], rfl, by simp⟩
  | cons p tl ih =>
    cases p with
    | good =>
      obtain ⟨n, rest, h1, h2⟩ := ih
      exact ⟨n + 1, rest, by rw [h1]; simp [List.replicate_succ], h2⟩
    | malformed msg => exact ⟨0, _, rfl, by simp⟩

theorem addQRCodeToPdf_succeeds (env : Env) (opt : Options) (hs : Succeeds env opt)
    (outputPath : String) (w : World) :
    ∃ (w1 : World) (doc : Doc), addQRCodeToPdf env outputPath opt w = (Outcome.ret none, w1) ∧
      w1.written = (outputPath, doc) :: w.written := by
  obtain ⟨x, hx⟩ := Option.isSome_iff_exists.mp hs.customX
  obtain ⟨y, hy⟩ := Option.isSome_iff_exists.mp hs.customY
  obtain ⟨n, rest, hpages, hrest⟩ := good_run (env.pdfPages outputPath)
  have hn : 0 < n := by
    rcases Nat.eq_zero_or_pos n with h0 | h0
    · subst h0
      have := hs.firstPage outputPath
      rw [hpages] at this
      simp at this
      exact absurd this hrest
    · exact h0
  obtain ⟨a, c, doc, -, -, -, hret, hwritten, -⟩ :=
    addQRCodeToPdf_ok env outputPath opt w x y n rest hx hy hn hpages hrest
      ⟨hs.openErr _, hs.decodeErr _, hs.createErr _, hs.encodeErr _⟩ hs.imageErr (hs.removeErr _)
      (hs.writePdfErr _)
  cases h : addQRCodeToPdf env outputPath opt w with
  | mk o w1 =>
    rw [h] at hret hwritten
    simp only at hret hwritten
    subst hret
    exact ⟨w1, doc, rfl, hwritten⟩

theorem convertImageToPdf_succeeds (env : Env) (opt : Options) (hs : Succeeds env opt)
    (imagePath pdfPath : String) (w : World) :
    ∃ (w1 : World) (doc : Doc), convertImageToPdf env imagePath pdfPath w = (Outcome.ret none, w1) ∧
      w1.written = (pdfPath, doc) :: w.written := by
  refine ⟨{ w with written := (pdfPath, (Doc.start.AddPage).draw
    { image := imagePath, x := 0, y := 0, size := DrawSize.native }) :: w.written }, _, ?_, rfl⟩
  simp [convertImageToPdf, Image, hs.imageErr, hs.writePdfErr, bind_run, pure_run, modifyWorld]

theorem convertDocxToPdf_succeeds (env : Env) (opt : Options) (hs : Succeeds env opt)
    (docxPath outPath : String) (w : World) :
    convertDocxToPdf env docxPath outPath w = (Outcome.ret none, w) := by
  simp [convertDocxToPdf, hs.docxOpenErr, hs.docxWriteErr, bind_run, pure_run]

theorem copyPdfContent_succeeds (env : Env) (opt : Options) (hs : Succeeds env opt)
    (srcPath dstPath : String) (w : World) :
    copyPdfContent env srcPath dstPath w = (Outcome.ret none, w) := by
  simp [copyPdfContent, hs.openErr, hs.createErr, hs.copyErr, bind_run, pure_run]


theorem processPasswordProtectedPdf_draw_succeeds (env : Env)
    (hnew : ∀ p, env.newImageErr p = none) :
    ∀ (positions : List PosQr) (c : Doc),
      ∃ c1, processPasswordProtectedPdf_draw env positions c = Except.ok c1 := by
  intro positions
  induction positions with
  | nil => intro c; exact ⟨c, rfl⟩
  | cons pos rest ih =>
    intro c
    simp only [processPasswordProtectedPdf_draw, hnew]
    exact ih _

theorem processPasswordProtectedPdf_loop_succeeds (env : Env) (r : Reader) (a : Stamp)
    (c0 : PosQr) (ha : a.CustomPos = some c0) (hnew : ∀ p, env.newImageErr p = none)
    (hget : ∀ k, r.getPageErr k = none) (hadd : ∀ k, r.addPageErr k = none) :
    ∀ (todo pageNum : Nat) (c : Doc) (w : World),
      ∃ c1, processPasswordProtectedPdf_loop env r a todo pageNum c w
        = (Outcome.ret (Except.ok c1), w) := by
  intro todo
  induction todo with
  | zero => intro pageNum c w; exact ⟨c, rfl⟩
  | succ n ih =>
    intro pageNum c w
    obtain ⟨c1, hc1⟩ := processPasswordProtectedPdf_draw_succeeds env hnew
      [a.TopLeft, a.TopRight, a.BottomLeft, a.BottomRight, c0]
      { c with pages := c.pages ++ [{ tpl := some pageNum, draws := [] }] }
    obtain ⟨c2, hc2⟩ := ih (pageNum + 1) c1 w
    refine ⟨c2, ?_⟩
    simp only [processPasswordProtectedPdf_loop, hget, hadd, bind_run, pure_run,
      processPasswordProtectedPdf_positions, deref, ha, hc1, hc2]

theorem processPasswordProtectedPdf_stamp_custom (env : Env) (opt : Options) (w : World)
    (x y : ℚ) (hx : opt.X = some x) (hy : opt.Y = some y) :
    ∃ (a : Stamp) (c : PosQr) (w1 : World),
      processPasswordProtectedPdf_stamp env opt w = (Outcome.ret a, w1) ∧
      a.CustomPos = some c ∧ w1.written = w.written := by
  rcases opt with ⟨ox, oy, pw⟩
  simp only at hx hy
  subst hx hy
  exact ⟨_, _, _, rfl, rfl, rfl⟩

theorem processPasswordProtectedPdf_metadata_succeeds (env : Env) (r : Reader) (w : World)
    (hinfo : r.getPdfInfoErr = none) (hmeta : ∀ k, env.metadataErr k = none) :
    processPasswordProtectedPdf_metadata env r w = (Outcome.ret (), w) := by
  simp only [processPasswordProtectedPdf_metadata, hinfo, hmeta, bind_run, pure_run]
  cases r.hasCreationDate <;> rfl

theorem processPasswordProtectedPdf_succeeds (env : Env) (opt : Options) (hs : Succeeds env opt)
    (filePath outputPath : String) (w : World)
    (henc : (env.reader filePath).isEncrypted = Except.ok true) :
    ∃ (w1 : World) (doc : Doc),
      processPasswordProtectedPdf env filePath opt outputPath w = (Outcome.ret none, w1) ∧
      w1.written = (outputPath, doc) :: w.written := by
  obtain ⟨x, hx⟩ := Option.isSome_iff_exists.mp hs.customX
  obtain ⟨y, hy⟩ := Option.isSome_iff_exists.mp hs.customY
  obtain ⟨pw, hpw, hdec⟩ := hs.password filePath henc
  obtain ⟨n, hnum⟩ := hs.getNumPages filePath
  obtain ⟨a, c0, w1, hst, hc0, hw1⟩ :=
    processPasswordProtectedPdf_stamp_custom env opt { w with resized := true } x y hx hy
  obtain ⟨c1, hloop⟩ := processPasswordProtectedPdf_loop_succeeds env (env.reader filePath) a c0
    hc0 hs.newImageErr (hs.getPageErr filePath) (hs.addPageErr filePath) n 1 Doc.start w1
  refine ⟨{ w1 with written := (outputPath, { c1 with password := some pw }) :: w1.written },
    _, ?_, by rw [← hw1]⟩
  simp only [processPasswordProtectedPdf, hs.openErr, hs.newReaderErr, henc, bind_run, pure_run,
    hpw, deref, hdec, hnum, if_true,
    resizeImage_ok env w ⟨hs.openErr _, hs.decodeErr _, hs.createErr _, hs.encodeErr _⟩,
    hst, hloop,
    processPasswordProtectedPdf_metadata_succeeds env _ _ (hs.getPdfInfoErr filePath)
      hs.metadataErr,
    WriteToFile, hs.writeToFileErr, modifyWorld]

theorem isPdfPasswordProtected_succeeds (env : Env) (opt : Options) (hs : Succeeds env opt)
    (filePath : String) (b : Bool) (hb : (env.reader filePath).isEncrypted = Except.ok b) :
    isPdfPasswordProtected env filePath = (b, none) := by
  simp [isPdfPasswordProtected, hs.openErr, hs.newReaderErr, hb]

theorem processFile_succeeds (env : Env) (opt : Options) (hs : Succeeds env opt)
    (filePath extension : String) (w : World)
    (hext : extension ∈ [".pdf", ".jpg", ".jpeg", ".png"]) :
    ∃ (w1 : World) (doc : Doc),
      processFile env filePath extension opt w = (Outcome.ret none, w1) ∧
      w1.written.head? = some (outputPathOf filePath extension, doc) := by
  by_cases hpdf : extension = ".pdf"
  · subst hpdf
    obtain ⟨b, hb⟩ := hs.isEncrypted filePath
    cases b with
    | true =>
      obtain ⟨w1, doc, hrun, hw⟩ := processPasswordProtectedPdf_succeeds env opt hs filePath
        (filepath.Join "output" (filepath.Base filePath)) w hb
      refine ⟨{ w1 with log := w1.log ++ [LogLine.processedOutput
        (filepath.Join "output" (filepath.Base filePath))] }, doc, ?_, by simp [hw, outputPathOf]⟩
      simp only [processFile, if_true, isPdfPasswordProtected_succeeds env opt hs filePath _ hb,
        initLicense, pure_bind_run, bind_run, hrun, logLine, pure_run]
    | false =>
      obtain ⟨w1, doc, hrun, hw⟩ := addQRCodeToPdf_succeeds env opt hs
        (filepath.Join "output" (filepath.Base filePath)) w
      refine ⟨{ w1 with log := w1.log ++ [LogLine.processedOutput
        (filepath.Join "output" (filepath.Base filePath))] }, doc, ?_, by simp [hw, outputPathOf]⟩
      simp only [processFile, if_true, isPdfPasswordProtected_succeeds env opt hs filePath _ hb]
      simp only [Bool.false_eq_true, if_false]
      rw [pure_bind_run, bind_ret (copyPdfContent_succeeds env opt hs _ _ w)]
      simp only []
      rw [pure_bind_run, bind_ret hrun]
      simp [bind_run, pure_run, logLine]
  · have himage : extension = ".jpg" ∨ extension = ".jpeg" ∨ extension = ".png" := by
      simp only [List.mem_cons, List.mem_singleton, List.not_mem_nil, or_false] at hext
      rcases hext with h | h | h | h
      · exact absurd h hpdf
      · exact Or.inl h
      · exact Or.inr (Or.inl h)
      · exact Or.inr (Or.inr h)
    obtain ⟨w1, doc1, hrun1, -⟩ := convertImageToPdf_succeeds env opt hs filePath
      (strings.TrimSuffix (filepath.Join "output" (filepath.Base filePath)) extension ++ ".pdf") w
    obtain ⟨w2, doc, hrun, hw⟩ := addQRCodeToPdf_succeeds env opt hs
      (strings.TrimSuffix (filepath.Join "output" (filepath.Base filePath)) extension ++ ".pdf") w1
    refine ⟨{ w2 with log := w2.log ++ [LogLine.processedOutput
      (filepath.Join "output" (filepath.Base filePath))] }, doc, ?_,
      by simp [hw, outputPathOf, hpdf]⟩
    simp only [processFile, if_neg hpdf, if_pos himage, bind_run, hrun1, hrun, logLine, pure_run]

theorem NewProcessFiles_entry_succeeds (env : Env) (opt : Options) (hs : Succeeds env opt)
    (inputPath : String) (file : DirEntry) (w : World) (hdir : file.IsDir = false)
    (hext : strings.ToLower (filepath.Ext (filepath.Join inputPath file.Name))
      ∈ [".pdf", ".jpg", ".jpeg", ".png", ".docx"]) :
    ∃ (w1 : World) (doc : Doc),
      NewProcessFiles_entry env inputPath opt file w = (Outcome.ret (), w1) ∧
      w1.written.head? = some (outputPathOf (filepath.Join inputPath file.Name)
        (strings.ToLower (filepath.Ext (filepath.Join inputPath file.Name))), doc) ∧
      w1.log.getLast? = some (LogLine.processedFile (filepath.Join inputPath file.Name)) := by
  by_cases hdocx : strings.ToLower (filepath.Ext (filepath.Join inputPath file.Name)) = ".docx"
  · obtain ⟨w2, doc, hrun, hw⟩ := addQRCodeToPdf_succeeds env opt hs
      (strings.TrimSuffix (filepath.Join "output"
        (filepath.Base (filepath.Join inputPath file.Name))) ".docx" ++ ".pdf") w
    refine ⟨{ w2 with log := w2.log ++
      [LogLine.processedFile (filepath.Join inputPath file.Name)] }, doc, ?_,
      by simp [hw, outputPathOf, hdocx], by simp⟩
    simp only [NewProcessFiles_entry, hdir, hdocx]
    simp only [Bool.not_false, if_true, initLicense]
    rw [if_neg (by decide), pure_bind_run, bind_run, convertDocxToPdf_succeeds env opt hs]
    simp only [bind_run, hrun, pure_run, logLine]
  · have hfour : strings.ToLower (filepath.Ext (filepath.Join inputPath file.Name))
        ∈ [".pdf", ".jpg", ".jpeg", ".png"] := by
      simp only [List.mem_cons, List.mem_singleton, List.not_mem_nil, or_false] at hext ⊢
      rcases hext with h | h | h | h | h
      · exact Or.inl h
      · exact Or.inr (Or.inl h)
      · exact Or.inr (Or.inr (Or.inl h))
      · exact Or.inr (Or.inr (Or.inr h))
      · exact absurd h hdocx
    obtain ⟨w1, doc, hrun, hw⟩ := processFile_succeeds env opt hs
      (filepath.Join inputPath file.Name) _ w hfour
    refine ⟨{ w1 with log := w1.log ++
      [LogLine.processedFile (filepath.Join inputPath file.Name)] }, doc, ?_, by simp [hw],
      by simp⟩
    simp only [List.mem_cons, List.mem_singleton, List.not_mem_nil, or_false] at hfour
    simp only [NewProcessFiles_entry, hdir]
    simp only [Bool.not_false, if_true]
    rw [if_pos hfour, bind_ret hrun]
    simp [bind_run, pure_run, logLine]

theorem succeeds_envOk : Succeeds envOk fullOptions where
  customX := rfl
  customY := rfl
  removeErr := fun _ => rfl
  openErr := fun _ => rfl
  createErr := fun _ => rfl
  copyErr := fun _ _ => rfl
  decodeErr := fun _ => rfl
  encodeErr := fun _ => rfl
  imageErr := fun _ => rfl
  writePdfErr := fun _ => rfl
  docxOpenErr := fun _ => rfl
  docxWriteErr := fun _ => rfl
  newImageErr := fun _ => rfl
  metadataErr := fun _ => rfl
  writeToFileErr := fun _ => rfl
  firstPage := fun _ => rfl
  newReaderErr := fun _ => rfl
  isEncrypted := fun _ => ⟨true, rfl⟩
  password := fun _ _ => ⟨"secret", rfl, rfl⟩
  getNumPages := fun _ => ⟨2, rfl⟩
  getPageErr := fun _ _ => rfl
  addPageErr := fun _ _ => rfl
  getPdfInfoErr := fun _ => rfl

theorem Join_output (name : String) (h : name.data ≠ []) :
    filepath.Join "output" name = "output/" ++ name := by
  apply String.ext
  simp [filepath.Join, h]

theorem outputPathOf_lower (inputPath base ext : String) (hbase : '/' ∉ base.data)
    (h : ext ∈ [".pdf", ".jpg", ".jpeg", ".png", ".docx"]) :
    outputPathOf (filepath.Join inputPath (base ++ ext))
        (strings.ToLower (filepath.Ext (filepath.Join inputPath (base ++ ext))))
      = "output/" ++ base ++ ".pdf" := by
  have hlow := toLower_of_mem ext h
  have hext := isExt_of_toLower ext (hlow.symm ▸ h)
  rw [Ext_Join inputPath base ext hext, hlow]
  unfold outputPathOf
  rw [Base_Join inputPath base ext hbase hext]
  split
  · rename_i hpdf
    subst hpdf
    rw [Join_output _ (by simp), String.append_assoc]
  · exact TrimSuffix_Join base ext hext

theorem outputPathOf_pdf (inputPath base ext : String) (hbase : '/' ∉ base.data)
    (h : strings.ToLower ext = ".pdf") :
    outputPathOf (filepath.Join inputPath (base ++ ext))
        (strings.ToLower (filepath.Ext (filepath.Join inputPath (base ++ ext))))
      = "output/" ++ base ++ ext := by
  have hext := isExt_of_toLower ext (by simp [h])
  rw [Ext_Join inputPath base ext hext, h]
  unfold outputPathOf
  rw [if_pos rfl, Base_Join inputPath base ext hbase hext]
  obtain ⟨rest, hdata, -⟩ := hext
  rw [Join_output _ (by simp [hdata]), String.append_assoc]

theorem deleteFilesInFolder_loop_ok (env : Env) (folderPath : String)
    (hrm : ∀ p, env.removeAllErr p = none) :
    ∀ (files : List String) (w : World),
      (deleteFilesInFolder_loop env folderPath files w).1 = Outcome.ret none := by
  intro files
  induction files with
  | nil => intro w; rfl
  | cons name rest ih =>
    intro w
    simp only [deleteFilesInFolder_loop, hrm, bind_run, pure_run, modifyWorld]
    exact ih _

theorem deleteFilesInFolder_ok (env : Env) (folderPath : String)
    (hrd : env.readDirImgErr = none) (hrm : ∀ p, env.removeAllErr p = none) (w : World) :
    (deleteFilesInFolder env folderPath w).1 = Outcome.ret none := by
  simp only [deleteFilesInFolder, hrd, bind_run, pure_run, getWorld]
  exact deleteFilesInFolder_loop_ok env folderPath hrm _ _

theorem NewProcessFiles_one_entry (env : Env) (inputPath : String)
    (options : List (Options → Options)) (file : DirEntry) (w : World)
    (hout : ensureDir env.statOutput env.mkdirOutput = none)
    (himg : ensureDir env.statImg env.mkdirImg = none)
    (hread : env.readDir inputPath = Except.ok [file])
    (hentry : (NewProcessFiles_entry env inputPath
      (options.foldl (fun opt optFunc => optFunc opt) { X := none, Y := none, PDFPassword := none })
      file w).1 = Outcome.ret ())
    (hrd : env.readDirImgErr = none) (hrm : ∀ p, env.removeAllErr p = none) :
    (NewProcessFiles env inputPath options w).1 = Outcome.ret none := by
  simp only [NewProcessFiles, hout, himg, hread, bind_run, pure_run, NewProcessFiles_loop]
  cases h : NewProcessFiles_entry env inputPath
      (options.foldl (fun opt optFunc => optFunc opt) { X := none, Y := none, PDFPassword := none })
      file w with
  | mk o w1 =>
    rw [h] at hentry
    simp only at hentry
    subst hentry
    simp only []
    have hd := deleteFilesInFolder_ok env "img" hrd hrm w1
    cases h2 : deleteFilesInFolder env "img" w1 with
    | mk o2 w2 =>
      rw [h2] at hd
      simp only at hd
      subst hd
      rfl

/-! ### Properties of the package -/

/-- C3: for every options value, the stamp built by `addQRCodeToPdf` and the
one built by `processPasswordProtectedPdf` are both built (no failure), have
the same coordinates, and these are the reference plan: the four corners
(5, 5), (520, 5), (5, 770), (520, 770) and a fifth position at (X, Y) exactly
when both X and Y are supplied. -/
theorem stamp_plans_agree_with_reference (env : Env) (opt : Options) (w : World) :
    ∃ a b : Stamp,
      (addQRCodeToPdf_stamp env opt w).1 = Outcome.ret a ∧
      (processPasswordProtectedPdf_stamp env opt w).1 = Outcome.ret b ∧
      a.coords = b.coords ∧
      a.coords = referencePlan opt.customXY ∧
      (a.CustomPos.isSome ↔ opt.X.isSome ∧ opt.Y.isSome) := by
  rcases opt with ⟨_ | x, _ | y, pw⟩ <;>
    refine ⟨_, _, rfl, rfl, ?_, ?_, ?_⟩ <;>
    simp [Stamp.coords, referencePlan, Options.customXY, PosQr.xy, defaultMargin,
      rightCorner, bottomCorner]

/-- C4, as stated, fails: the bottom-left position the code builds is (5, 770),
and its 75-point footprint ends at 845, past the page height 841.89. -/
theorem bottom_footprint_crosses_page :
    ∃ a : Stamp, (addQRCodeToPdf_stamp envOk noOptions world0).1 = Outcome.ret a ∧
      ¬ footprintInside a.BottomLeft.X a.BottomLeft.Y := by
  refine ⟨_, rfl, ?_⟩
  simp only [footprintInside, bottomCorner, defaultMargin, qrSize, pageWidth, pageHeight]
  norm_num

/-- C4, amended: for each of the four mandatory positions of the stamp the code
builds, 0 <= x, 0 <= y and x + 75 <= 595.28; y + 75 <= 841.89 holds for the
two top positions, and the footprint of the two bottom positions ends at
y + 75 = 845, past 841.89. -/
theorem mandatory_footprints (env : Env) (opt : Options) (w : World) :
    ∃ a : Stamp, (addQRCodeToPdf_stamp env opt w).1 = Outcome.ret a ∧
      (∀ p ∈ [a.TopLeft, a.TopRight, a.BottomLeft, a.BottomRight],
        0 ≤ p.X ∧ 0 ≤ p.Y ∧ p.X + qrSize ≤ pageWidth) ∧
      footprintInside a.TopLeft.X a.TopLeft.Y ∧
      footprintInside a.TopRight.X a.TopRight.Y ∧
      a.BottomLeft.Y + qrSize = 845 ∧ a.BottomRight.Y + qrSize = 845 ∧
      pageHeight < 845 := by
  rcases opt with ⟨_ | x, _ | y, pw⟩ <;>
    refine ⟨_, rfl, ?_, ?_, ?_, ?_, ?_, ?_⟩ <;>
    simp only [footprintInside, bottomCorner, defaultMargin, rightCorner, qrSize, pageWidth,
      pageHeight, List.mem_cons, List.mem_singleton, List.not_mem_nil, or_false,
      forall_eq_or_imp, forall_eq] <;>
    norm_num

/-- C1 fails on the code: whenever X or Y is absent, the list of positions
that `addQRCodeToPdf` (line 301) and `processPasswordProtectedPdf` (line 549)
build from their stamp dereferences the nil `CustomPos` and panics; no list of
four positions is built. -/
theorem positions_panic_without_custom (env : Env) (opt : Options) (w : World)
    (h : opt.X = none ∨ opt.Y = none) :
    ((addQRCodeToPdf_stamp env opt >>= addQRCodeToPdf_positions) w).1
        = Outcome.panicked nilDeref ∧
      ((processPasswordProtectedPdf_stamp env opt >>= processPasswordProtectedPdf_positions) w).1
        = Outcome.panicked nilDeref := by
  rcases opt with ⟨_ | x, _ | y, pw⟩
  · exact ⟨rfl, rfl⟩
  · exact ⟨rfl, rfl⟩
  · exact ⟨rfl, rfl⟩
  · simp at h

/-- C1 at the options of a call without option functions. -/
theorem positions_panic_without_custom_witness :
    (noOptions.X = none ∨ noOptions.Y = none) ∧
      ((addQRCodeToPdf_stamp envOk noOptions >>= addQRCodeToPdf_positions) world0).1
        = Outcome.panicked nilDeref ∧
      ((processPasswordProtectedPdf_stamp envOk noOptions >>=
          processPasswordProtectedPdf_positions) world0).1
        = Outcome.panicked nilDeref :=
  ⟨Or.inl rfl, positions_panic_without_custom envOk noOptions world0 (Or.inl rfl)⟩

/-- C2 fails on the code: on a two-page PDF and options without a custom
position, in an environment where every primitive succeeds, `addQRCodeToPdf`
panics on the nil `CustomPos` while it builds the positions of the first page
and writes no output. -/
theorem addQRCodeToPdf_panics_without_custom :
    (addQRCodeToPdf envOk "output/a.pdf" noOptions world0).1 = Outcome.panicked nilDeref ∧
      (addQRCodeToPdf envOk "output/a.pdf" noOptions world0).2.written = [] := by
  decide

/-- C5, as stated, fails: in a three-page PDF whose second page makes the import
primitive panic (a failure that is not the out-of-range condition),
`addQRCodeToPdf` ends the enumeration there, writes a one-page output and
returns nil. -/
theorem malformed_page_ends_enumeration :
    (ImportPage envMalformed "output/a.pdf" 2 world0).1 = Outcome.panicked "bad xref" ∧
      (addQRCodeToPdf envMalformed "output/a.pdf" customOptions world0).1 = Outcome.ret none ∧
      (addQRCodeToPdf envMalformed "output/a.pdf" customOptions world0).2.written.map
        (fun pd => (pd.1, pd.2.pages.length)) = [("output/a.pdf", 1)] := by
  decide

/-- C5, amended: in `addQRCodeToPdf`, page enumeration stops when importing the
next page index fails for whatever reason, out of range or not:
`importPdfPage` turns every panic of the import primitive into the one error
"array index out of bounds", and when the file has n >= 1 good pages before the
first failing index (a custom position being configured and every other
primitive succeeding) `addQRCodeToPdf` returns nil and writes an output of
exactly those n pages. -/
theorem import_failure_ends_enumeration (env : Env) (outputPath : String) (opt : Options)
    (w : World) (x y : ℚ) (n : Nat) (rest : List PageImport)
    (hx : opt.X = some x) (hy : opt.Y = some y) (hn : 0 < n)
    (hpages : env.pdfPages outputPath = List.replicate n PageImport.good ++ rest)
    (hrest : rest.head? ≠ some PageImport.good)
    (hresize : env.openErr privyImg = none ∧ env.decodeErr privyImg = none ∧
      env.createErr privyResizedImg = none ∧ env.encodeErr privyResizedImg = none)
    (himg : ∀ p, env.imageErr p = none)
    (hremove : env.removeErr privyResizedImg = none)
    (hwrite : env.writePdfErr outputPath = none) :
    (∀ (k : Nat) (w1 : World) (msg : String),
        (ImportPage env outputPath k w1).1 = Outcome.panicked msg →
        (importPdfPage env outputPath k w1).1
          = Outcome.ret (0, some "array index out of bounds")) ∧
      (importPdfPage env outputPath (n + 1) w).1
        = Outcome.ret (0, some "array index out of bounds") ∧
      (addQRCodeToPdf env outputPath opt w).1 = Outcome.ret none ∧
      ∃ doc : Doc,
        (addQRCodeToPdf env outputPath opt w).2.written = (outputPath, doc) :: w.written ∧
        doc.pages.length = n := by
  obtain ⟨a, c, doc, -, -, -, hret, hwritten, hdoc⟩ :=
    addQRCodeToPdf_ok env outputPath opt w x y n rest hx hy hn hpages hrest hresize himg
      hremove hwrite
  refine ⟨?_, ?_, hret, doc, hwritten, by simp [hdoc, pagesFrom]⟩
  · intro k w1 msg h
    unfold importPdfPage
    cases hq : ImportPage env outputPath k w1 with
    | mk o w2 =>
      rw [hq] at h
      simp only at h
      subst h
      rfl
  · have hbad : (env.pdfPages outputPath)[n]? ≠ some PageImport.good := by
      rw [hpages]
      simp [List.getElem?_append_right, List.head?_eq_getElem?] at hrest ⊢
      exact hrest
    rw [importPdfPage_bad env outputPath n w hbad]

/-- C5, amended, on a three-page PDF whose second page is malformed. -/
theorem import_failure_ends_enumeration_witness :
    (importPdfPage envMalformed "output/a.pdf" 2 world0).1
        = Outcome.ret (0, some "array index out of bounds") ∧
      (addQRCodeToPdf envMalformed "output/a.pdf" customOptions world0).1 = Outcome.ret none ∧
      ∃ doc : Doc,
        (addQRCodeToPdf envMalformed "output/a.pdf" customOptions world0).2.written
          = ("output/a.pdf", doc) :: world0.written ∧
        doc.pages.length = 1 :=
  (import_failure_ends_enumeration envMalformed "output/a.pdf" customOptions world0 100 200 1
    [PageImport.malformed "bad xref", PageImport.good] rfl rfl (by decide) rfl (by decide)
    ⟨rfl, rfl, rfl, rfl⟩ (fun _ => rfl) rfl rfl).2

/-- C6 fails on the code: on an encrypted PDF and options without a password,
`processPasswordProtectedPdf` panics on the nil `PDFPassword` (line 489)
instead of returning an error.  With a wrong password, in an environment where
unipdf refuses the page count of an unauthenticated reader, it returns that
error and writes nothing. -/
theorem processPasswordProtectedPdf_missing_password_panics :
    (envOk.reader "in/a.pdf").isEncrypted = Except.ok true ∧
      (processPasswordProtectedPdf envOk "in/a.pdf" customOptions "output/a.pdf" world0).1
        = Outcome.panicked nilDeref ∧
      (processPasswordProtectedPdf envOk "in/a.pdf" wrongPasswordOptions "output/a.pdf" world0).1
        = Outcome.ret (some "file need to be decrypted first") ∧
      (processPasswordProtectedPdf envOk "in/a.pdf" wrongPasswordOptions "output/a.pdf"
          world0).2.written = [] :=
  ⟨rfl, by decide, by decide, by decide⟩

/-- C10 fails on the code: when `WriteToFile` fails on an encrypted PDF (right
password, custom position), `processPasswordProtectedPdf` returns nil, and
`processFile` logs the file as processed and returns nil although nothing was
written; on the same failure of `WritePdf`, `addQRCodeToPdf` and `processFile`
return the error. -/
theorem write_failure_lost_on_protected_path :
    envWriteFails.writeToFileErr "output/a.pdf" = some "disk full" ∧
      (processPasswordProtectedPdf envWriteFails "in/a.pdf" fullOptions "output/a.pdf" world0).1
        = Outcome.ret none ∧
      (processFile envWriteFails "in/a.pdf" ".pdf" fullOptions world0).1 = Outcome.ret none ∧
      (processFile envWriteFails "in/a.pdf" ".pdf" fullOptions world0).2.log
        = [LogLine.processedOutput "output/a.pdf"] ∧
      (processFile envWriteFails "in/a.pdf" ".pdf" fullOptions world0).2.written = [] ∧
      (addQRCodeToPdf envWriteFailsPlain "output/a.pdf" fullOptions world0).1
        = Outcome.ret (some "disk full") ∧
      (processFile envWriteFailsPlain "in/a.pdf" ".pdf" fullOptions world0).1
        = Outcome.ret (some "disk full") := by
  decide

/-- C7, as stated, fails: with both working directories present and the input
directory listed (it is empty), a failure to list `img/` for the final purge
makes `NewProcessFiles` return that error, not nil. -/
theorem purge_failure_is_returned :
    ensureDir envPurgeFails.statOutput envPurgeFails.mkdirOutput = none ∧
      ensureDir envPurgeFails.statImg envPurgeFails.mkdirImg = none ∧
      envPurgeFails.readDir "in" = Except.ok [] ∧
      (NewProcessFiles envPurgeFails "in" [] world0).1 = Outcome.ret (some "permission denied") :=
  ⟨by decide, by decide, rfl, by decide⟩

/-- C7, amended: `NewProcessFiles` returns a non-nil error if and only if
creating or stat-ing `output/` or `img/` fails, listing the input directory
fails, or (the loop over the entries having returned) the purge of `img/` at
the end fails.  An error that `processFile`, `convertDocxToPdf` or
`addQRCodeToPdf` returns for one entry is logged, the entry ends normally and
the loop goes on with the remaining entries. -/
theorem NewProcessFiles_errors (env : Env) (inputPath : String)
    (options : List (Options → Options)) (opt : Options)
    (hopt : opt = options.foldl (fun opt optFunc => optFunc opt)
      { X := none, Y := none, PDFPassword := none }) :
    (∀ (w : World) (err : String),
      (NewProcessFiles env inputPath options w).1 = Outcome.ret (some err) ↔
        ensureDir env.statOutput env.mkdirOutput = some err ∨
        (ensureDir env.statOutput env.mkdirOutput = none ∧
          ensureDir env.statImg env.mkdirImg = some err) ∨
        (ensureDir env.statOutput env.mkdirOutput = none ∧
          ensureDir env.statImg env.mkdirImg = none ∧
          env.readDir inputPath = Except.error err) ∨
        (ensureDir env.statOutput env.mkdirOutput = none ∧
          ensureDir env.statImg env.mkdirImg = none ∧
          ∃ (files : List DirEntry) (w1 : World),
            env.readDir inputPath = Except.ok files ∧
            NewProcessFiles_loop env inputPath opt files w = (Outcome.ret (), w1) ∧
            (deleteFilesInFolder env "img" w1).1 = Outcome.ret (some err))) ∧
    (∀ (file : DirEntry) (w w1 : World) (err : String),
      file.IsDir = false →
      strings.ToLower (filepath.Ext (filepath.Join inputPath file.Name))
        ∈ [".pdf", ".jpg", ".jpeg", ".png"] →
      processFile env (filepath.Join inputPath file.Name)
        (strings.ToLower (filepath.Ext (filepath.Join inputPath file.Name))) opt w
        = (Outcome.ret (some err), w1) →
      NewProcessFiles_entry env inputPath opt file w
        = (Outcome.ret (), { w1 with log := w1.log ++
            [LogLine.errorProcessing (filepath.Join inputPath file.Name) err,
             LogLine.processedFile (filepath.Join inputPath file.Name)] })) ∧
    (∀ (file : DirEntry) (w w1 : World) (err : String),
      file.IsDir = false →
      strings.ToLower (filepath.Ext (filepath.Join inputPath file.Name)) = ".docx" →
      convertDocxToPdf env (filepath.Join inputPath file.Name)
        (strings.TrimSuffix (filepath.Join "output"
          (filepath.Base (filepath.Join inputPath file.Name))) ".docx" ++ ".pdf") w
        = (Outcome.ret (some err), w1) →
      NewProcessFiles_entry env inputPath opt file w
        = (Outcome.ret (), { w1 with log := w1.log ++
            [LogLine.errorConverting (filepath.Join inputPath file.Name) err,
             LogLine.processedFile (filepath.Join inputPath file.Name)] })) ∧
    (∀ (file : DirEntry) (w w1 w2 : World) (err : String),
      file.IsDir = false →
      strings.ToLower (filepath.Ext (filepath.Join inputPath file.Name)) = ".docx" →
      convertDocxToPdf env (filepath.Join inputPath file.Name)
        (strings.TrimSuffix (filepath.Join "output"
          (filepath.Base (filepath.Join inputPath file.Name))) ".docx" ++ ".pdf") w
        = (Outcome.ret none, w1) →
      addQRCodeToPdf env
        (strings.TrimSuffix (filepath.Join "output"
          (filepath.Base (filepath.Join inputPath file.Name))) ".docx" ++ ".pdf") opt w1
        = (Outcome.ret (some err), w2) →
      NewProcessFiles_entry env inputPath opt file w
        = (Outcome.ret (), { w2 with log := w2.log ++
            [LogLine.errorConverted
               (strings.TrimSuffix (filepath.Join "output"
                 (filepath.Base (filepath.Join inputPath file.Name))) ".docx" ++ ".pdf") err,
             LogLine.processedFile (filepath.Join inputPath file.Name)] })) ∧
    (∀ (file : DirEntry) (rest : List DirEntry) (w w1 : World),
      NewProcessFiles_entry env inputPath opt file w = (Outcome.ret (), w1) →
      NewProcessFiles_loop env inputPath opt (file :: rest) w
        = NewProcessFiles_loop env inputPath opt rest w1) := by
  subst hopt
  refine ⟨?_, ?_, ?_, ?_, ?_⟩
  · intro w err
    simp only [NewProcessFiles]
    cases h1 : ensureDir env.statOutput env.mkdirOutput with
    | some e1 => simp [pure_run]
    | none =>
      cases h2 : ensureDir env.statImg env.mkdirImg with
      | some e2 => simp [pure_run, bind_run]
      | none =>
        cases h3 : env.readDir inputPath with
        | error e3 => simp [pure_run, bind_run]
        | ok files =>
          simp only [pure_run, bind_run]
          cases h4 : NewProcessFiles_loop env inputPath
              (options.foldl (fun opt optFunc => optFunc opt)
                { X := none, Y := none, PDFPassword := none }) files w with
          | mk o w1 =>
            cases o with
            | panicked msg => simp [h4]
            | exited => simp [h4]
            | ret u =>
              cases h5 : deleteFilesInFolder env "img" w1 with
              | mk o2 w2 =>
                cases o2 with
                | panicked msg => simp [h4, h5]
                | exited => simp [h4, h5]
                | ret r =>
                  cases r with
                  | none => simp [h4, h5, pure_run, bind_run]
                  | some e5 => simp [h4, h5, pure_run, bind_run]
  · intro file w w1 err hdir hext hrun
    simp only [List.mem_cons, List.mem_singleton, List.not_mem_nil, or_false] at hext
    simp only [NewProcessFiles_entry, hdir, hext]
    simp only [Bool.not_false, if_true]
    rw [bind_ret hrun]
    simp [bind_run, logLine]
  · intro file w w1 err hdir hext hrun
    simp only [NewProcessFiles_entry, hdir, hext]
    simp only [Bool.not_false, if_true, initLicense]
    rw [if_neg (by decide), pure_bind_run, bind_ret hrun]
    simp [bind_run, logLine]
  · intro file w w1 w2 err hdir hext hrun hadd
    simp only [NewProcessFiles_entry, hdir, hext]
    simp only [Bool.not_false, if_true, initLicense]
    rw [if_neg (by decide), pure_bind_run, bind_ret hrun]
    simp only []
    rw [bind_ret hadd]
    simp [bind_run, logLine]
  · intro file rest w w1 h
    simp only [NewProcessFiles_loop]
    rw [bind_ret h]

/-- C7, amended, on a directory whose first entry cannot be opened. -/
theorem NewProcessFiles_errors_witness :
    NewProcessFiles_entry envOpenFails "in" noOptions { Name := "a.pdf", IsDir := false } world0
      = (Outcome.ret (), { world0 with log := world0.log ++
          [LogLine.errorProcessing (filepath.Join "in" "a.pdf") "permission denied",
           LogLine.processedFile (filepath.Join "in" "a.pdf")] }) :=
  (NewProcessFiles_errors envOpenFails "in" [] noOptions rfl).2.1
    { Name := "a.pdf", IsDir := false } world0 world0 "permission denied" rfl
    (by decide) (by decide)

/-- C9, as stated, fails: when `addQRCodeToPdf` has returned nil for one file
(custom position, every primitive succeeding), the five token images minted
for that file are still in `img/`, which was empty before the call. -/
theorem tokens_remain_after_file :
    (addQRCodeToPdf envOk "output/a.pdf" customOptions world0).1 = Outcome.ret none ∧
      world0.img = [] ∧
      (addQRCodeToPdf envOk "output/a.pdf" customOptions world0).2.img
        = ["uuuuu.png", "uuuu.png", "uuu.png", "uu.png", "u.png"] := by
  decide

/-- C9, amended: when the processing of one directory entry finishes, however
it ends, every file that was in `img/` before is still there and so is every
token image minted by `generateQR` during the call (whose image was written):
nothing is deleted from `img/` per file.  The token files are deleted by the
purge at the end of the batch: when `NewProcessFiles` returns nil, `img/` is
empty. -/
theorem tokens_kept_until_purge (env : Env) (inputPath : String) :
    (∀ (opt : Options) (file : DirEntry) (w : World),
      TokensKept env w (NewProcessFiles_entry env inputPath opt file w).2) ∧
    (∀ (options : List (Options → Options)) (w : World),
      (NewProcessFiles env inputPath options w).1 = Outcome.ret none →
      (NewProcessFiles env inputPath options w).2.img = []) :=
  ⟨fun opt file w =>
    (keeps_NewProcessFiles_entry (tokensKept_frame env) env (tokensKept_generateQR env)
      inputPath opt file (fun _ w d => tokensKept_written env _ w d)
      (fun _ w d => tokensKept_written env _ w d)).run w,
   fun options w h => NewProcessFiles_empties env inputPath options w h⟩

/-- C9, amended, on a batch of one unencrypted PDF stamped at a custom
position: five tokens are minted, all five are in `img/` when the processing
of the file has finished, and `img/` is empty once the batch has returned nil. -/
theorem tokens_kept_until_purge_witness :
    (NewProcessFiles_entry envOnePdf "in" customOptions { Name := "a.pdf", IsDir := false }
        world0).2.nextUuid = 5 ∧
      (NewProcessFiles_entry envOnePdf "in" customOptions { Name := "a.pdf", IsDir := false }
        world0).2.img = ["uuuuu.png", "uuuu.png", "uuu.png", "uu.png", "u.png"] ∧
      TokensKept envOnePdf world0
        (NewProcessFiles_entry envOnePdf "in" customOptions { Name := "a.pdf", IsDir := false }
          world0).2 ∧
      (NewProcessFiles envOnePdf "in" [WithX 100, WithY 200] world0).1 = Outcome.ret none ∧
      (NewProcessFiles envOnePdf "in" [WithX 100, WithY 200] world0).2.img = [] :=
  ⟨by decide, by decide,
   (tokens_kept_until_purge envOnePdf "in").1 customOptions _ world0,
   NewProcessFiles_one_entry envOnePdf "in" [WithX 100, WithY 200] _ world0 (by decide)
     (by decide) rfl (by decide) rfl (fun _ => rfl),
   (tokens_kept_until_purge envOnePdf "in").2 [WithX 100, WithY 200] world0
     (NewProcessFiles_one_entry envOnePdf "in" [WithX 100, WithY 200] _ world0 (by decide)
       (by decide) rfl (by decide) rfl (fun _ => rfl))⟩

/-- C8, as stated, fails: the output of the entry `A.PNG` is written to
`output/A.PNG.pdf`, not `output/A.pdf`, and the output of the entry
`report.PDF` is written to `output/report.PDF`, not `output/report.pdf`. -/
theorem upper_case_extension_paths :
    (NewProcessFiles_entry envOk "in" fullOptions { Name := "A.PNG", IsDir := false }
        world0).2.written.map Prod.fst = ["output/A.PNG.pdf", "output/A.PNG.pdf"] ∧
      (NewProcessFiles_entry envOk "in" fullOptions { Name := "report.PDF", IsDir := false }
        world0).2.written.map Prod.fst = ["output/report.PDF"] := by
  decide

/-- C8, amended: for every non-directory entry named base ++ ext, with no
separator in base and ext equal, case-insensitively, to one of .pdf, .jpg,
.jpeg, .png, .docx, the entry is processed: the switch of `NewProcessFiles`
selects the lower-cased extension, and when every primitive succeeds the
entry returns, an output document is written and "Processed file" is printed.
When ext is spelt in lower case, every document written for the entry is
written to output/base.pdf, and when every primitive succeeds the output is
written there.  A PDF entry, whatever the case of its extension, is written to
output/base ++ ext, its file name unchanged, and nowhere else. -/
theorem entry_output_path (env : Env) (inputPath : String) (opt : Options) (w : World)
    (base ext : String) (hbase : '/' ∉ base.data) :
    (strings.ToLower ext ∈ [".pdf", ".jpg", ".jpeg", ".png", ".docx"] →
      strings.ToLower (filepath.Ext (filepath.Join inputPath (base ++ ext)))
        = strings.ToLower ext) ∧
    (strings.ToLower ext ∈ [".pdf", ".jpg", ".jpeg", ".png", ".docx"] → Succeeds env opt →
      ∃ (w1 : World) (path : String) (doc : Doc),
        NewProcessFiles_entry env inputPath opt { Name := base ++ ext, IsDir := false } w
          = (Outcome.ret (), w1) ∧
        w1.written.head? = some (path, doc) ∧
        w1.log.getLast? = some (LogLine.processedFile (filepath.Join inputPath (base ++ ext)))) ∧
    (ext ∈ [".pdf", ".jpg", ".jpeg", ".png", ".docx"] →
      WritesOnly ("output/" ++ base ++ ".pdf") w
        (NewProcessFiles_entry env inputPath opt { Name := base ++ ext, IsDir := false } w).2 ∧
      (Succeeds env opt → ∃ doc : Doc,
        (NewProcessFiles_entry env inputPath opt { Name := base ++ ext, IsDir := false }
          w).2.written.head? = some ("output/" ++ base ++ ".pdf", doc))) ∧
    (strings.ToLower ext = ".pdf" →
      WritesOnly ("output/" ++ base ++ ext) w
        (NewProcessFiles_entry env inputPath opt { Name := base ++ ext, IsDir := false } w).2 ∧
      (Succeeds env opt → ∃ doc : Doc,
        (NewProcessFiles_entry env inputPath opt { Name := base ++ ext, IsDir := false }
          w).2.written.head? = some ("output/" ++ base ++ ext, doc))) := by
  refine ⟨fun h => ?_, fun h hs => ?_, fun h => ⟨?_, fun hs => ?_⟩, fun h => ⟨?_, fun hs => ?_⟩⟩
  · rw [Ext_Join inputPath base ext (isExt_of_toLower ext h)]
  · have hsel : strings.ToLower (filepath.Ext (filepath.Join inputPath (base ++ ext)))
        ∈ [".pdf", ".jpg", ".jpeg", ".png", ".docx"] := by
      rw [Ext_Join inputPath base ext (isExt_of_toLower ext h)]; exact h
    obtain ⟨w1, doc, hrun, hw, hlog⟩ := NewProcessFiles_entry_succeeds env opt hs inputPath
      { Name := base ++ ext, IsDir := false } w rfl hsel
    exact ⟨w1, _, doc, hrun, hw, hlog⟩
  · have hlow := toLower_of_mem ext h
    have hext := isExt_of_toLower ext (hlow.symm ▸ h)
    refine (keeps_NewProcessFiles_entry (writesOnly_frame _) env (writesOnly_generateQR _ env)
      inputPath opt _ (fun hpdf w d => ?_) (fun _ w d => ?_)).run w
    · simp only [Ext_Join inputPath base ext hext, hlow] at hpdf
      subst hpdf
      simp only [Base_Join inputPath base ".pdf" hbase hext]
      rw [Join_output _ (by simp), String.append_assoc]
      exact writesOnly_written _ w d
    · simp only [Ext_Join inputPath base ext hext, hlow, Base_Join inputPath base ext hbase hext,
        TrimSuffix_Join base ext hext]
      exact writesOnly_written _ w d
  · have hlow := toLower_of_mem ext h
    have hsel : strings.ToLower (filepath.Ext (filepath.Join inputPath (base ++ ext)))
        ∈ [".pdf", ".jpg", ".jpeg", ".png", ".docx"] := by
      rw [Ext_Join inputPath base ext (isExt_of_toLower ext (hlow.symm ▸ h)), hlow]; exact h
    obtain ⟨w1, doc, hrun, hw, -⟩ := NewProcessFiles_entry_succeeds env opt hs inputPath
      { Name := base ++ ext, IsDir := false } w rfl hsel
    refine ⟨doc, ?_⟩
    rw [hrun]
    simp only [hw]
    rw [outputPathOf_lower inputPath base ext hbase h]
  · have hext := isExt_of_toLower ext (by simp [h])
    refine (keeps_NewProcessFiles_entry (writesOnly_frame _) env (writesOnly_generateQR _ env)
      inputPath opt _ (fun _ w d => ?_) (fun hne _ _ => ?_)).run w
    · simp only [Base_Join inputPath base ext hbase hext]
      obtain ⟨rest, hdata, -⟩ := hext
      rw [Join_output _ (by simp [hdata]), String.append_assoc]
      exact writesOnly_written _ w d
    · simp only [Ext_Join inputPath base ext hext] at hne
      exact absurd h hne
  · have hsel : strings.ToLower (filepath.Ext (filepath.Join inputPath (base ++ ext)))
        ∈ [".pdf", ".jpg", ".jpeg", ".png", ".docx"] := by
      rw [Ext_Join inputPath base ext (isExt_of_toLower ext (by simp [h])), h]; decide
    obtain ⟨w1, doc, hrun, hw, -⟩ := NewProcessFiles_entry_succeeds env opt hs inputPath
      { Name := base ++ ext, IsDir := false } w rfl hsel
    refine ⟨doc, ?_⟩
    rw [hrun]
    simp only [hw]
    rw [outputPathOf_pdf inputPath base ext hbase h]

/-- C8, amended, on the entries `photo.png` and `report.PDF`. -/
theorem entry_output_path_witness :
    (∃ doc : Doc,
        (NewProcessFiles_entry envOk "in" fullOptions { Name := "photo" ++ ".png", IsDir := false }
          world0).2.written.head? = some ("output/" ++ "photo" ++ ".pdf", doc)) ∧
      WritesOnly ("output/" ++ "photo" ++ ".pdf") world0
        (NewProcessFiles_entry envOk "in" fullOptions
          { Name := "photo" ++ ".png", IsDir := false } world0).2 ∧
      (∃ doc : Doc,
        (NewProcessFiles_entry envOk "in" fullOptions { Name := "report" ++ ".PDF", IsDir := false }
          world0).2.written.head? = some ("output/" ++ "report" ++ ".PDF", doc)) :=
  ⟨((entry_output_path envOk "in" fullOptions world0 "photo" ".png" (by decide)).2.2.1
      (by decide)).2 succeeds_envOk,
   ((entry_output_path envOk "in" fullOptions world0 "photo" ".png" (by decide)).2.2.1
      (by decide)).1,
   ((entry_output_path envOk "in" fullOptions world0 "report" ".PDF" (by decide)).2.2.2
      (by decide)).2 succeeds_envOk⟩

end Converter
